import Mathlib

/-!
# Deferred plugin commands and bridge channels

A shallow embedding of the command-construction layer of the plugin bridge
(`DeferredPlugin.h`, `PluginClient.h`, `ThreadedPlugin.h`, `PluginBridge.h`)
together with the properties proved about it.

Conventions of the embedding

* A byte is a natural number; the one narrowing cast of the source,
  `(uint8_t)size`, is written `size % 256`.
* A memory cell is `Option Byte`: `none` is an indeterminate byte (never
  written, or read from outside every live object).
* Memory is a list of blocks addressed by their position; a block is never
  reused, a released block stays in the list as `none`.
* A virtual hook of the source (`pushCommand`, the operations of `ShmChannel`)
  is a parameter of the embedded function, which threads an explicit state
  through it.
* `float` and `double` values are only stored, never computed with; they are
  represented by their bit patterns.
-/

namespace vst

/-! ## Memory -/

/-- One byte. -/
abbrev Byte := Nat

/-- One memory cell: a byte, or `none` when its value is indeterminate. -/
abbrev Cell := Option Byte

/-- A `char*`: a block of memory and a position inside it. -/
structure Ptr where
  block : Nat
  off : Nat
  deriving DecidableEq, Repr

/-- The memory of the process: every block ever created, in creation order.
A released block is `none`. -/
structure Heap where
  blocks : List (Option (List Cell))
  deriving DecidableEq, Repr

/-- The cells of a live block; a released or unknown block has none. -/
def Heap.block (h : Heap) (b : Nat) : List Cell :=
  match h.blocks[b]? with
  | some (some cells) => cells
  | _ => []

/-- The cell `p[i]`. Outside a live block the value is indeterminate. -/
def Heap.cell (h : Heap) (p : Ptr) (i : Nat) : Cell :=
  ((h.block p.block)[p.off + i]?).join

/-- The `n` cells `p[0], ..., p[n-1]`. -/
def Heap.readN (h : Heap) (p : Ptr) (n : Nat) : List Cell :=
  (List.range n).map (h.cell p)

/-- The expression `new char[n]`: a fresh block of `n` indeterminate cells,
placed after every existing block. -/
def Heap.new (h : Heap) (n : Nat) : Heap × Ptr :=
  (⟨h.blocks ++ [some (List.replicate n none)]⟩, ⟨h.blocks.length, 0⟩)

/-- Overwrite the cells of an array from position `off` on. A copy that would
run past the end of the array is undefined in the source; the array is then
left as it is. -/
def writeCells (dst : List Cell) (off : Nat) (src : List Cell) : List Cell :=
  if off + src.length ≤ dst.length then
    dst.take off ++ src ++ dst.drop (off + src.length)
  else dst

/-- Store `cells` at `dst[0], dst[1], ...`. -/
def Heap.writeN (h : Heap) (dst : Ptr) (cells : List Cell) : Heap :=
  match h.blocks[dst.block]? with
  | some (some old) => ⟨h.blocks.set dst.block (some (writeCells old dst.off cells))⟩
  | _ => h

/-- The call `memcpy(dst, src, n)` between two places of the memory. -/
def Heap.memcpy (h : Heap) (dst src : Ptr) (n : Nat) : Heap :=
  h.writeN dst (h.readN src n)

/-- The statement `delete[] p` (or the end of life of the object at `p`). -/
def Heap.free (h : Heap) (b : Nat) : Heap :=
  match h.blocks[b]? with
  | some _ => ⟨h.blocks.set b none⟩
  | none => h

/-- Something the rest of the program may later do to a block of memory. -/
inductive HeapOp where
  | store (p : Ptr) (cells : List Cell)
  | release (b : Nat)
  deriving DecidableEq, Repr

/-- The block a later operation touches. -/
def HeapOp.target : HeapOp → Nat
  | .store p _ => p.block
  | .release b => b

/-- Apply one later operation. -/
def Heap.apply (h : Heap) : HeapOp → Heap
  | .store p cells => h.writeN p cells
  | .release b => h.free b

/-- Apply later operations one after the other. -/
def Heap.applyAll (h : Heap) (ops : List HeapOp) : Heap :=
  ops.foldl Heap.apply h

/-! ## Values crossing the interface (`Interface.h`) -/

/-- A `float` or `double`, as its bit pattern. -/
structure FloatBits where
  bits : Nat
  deriving DecidableEq, Repr

/-- A `std::string_view`: `data()` and `size()`. -/
structure StringView where
  data : Ptr
  size : Nat
  deriving DecidableEq, Repr

/-- The characters `str[0], ..., str[size-1]` of a view. -/
def StringView.chars (h : Heap) (str : StringView) : List Cell :=
  h.readN str.data str.size

/-- An enumerator of `enum class Bypass`, as the value of its underlying
type. The enumeration itself is declared in `Interface.h`. -/
structure Bypass where
  val : Int
  deriving DecidableEq, Repr

/-- A `MidiEvent`: the fixed array `data`, `delta` and `detune`. -/
structure MidiEvent where
  data : List Byte
  delta : Int
  detune : FloatBits
  deriving DecidableEq, Repr

/-- A `SysexEvent`: a pointer to its bytes, their number and `delta`. -/
structure SysexEvent where
  data : Ptr
  size : Nat
  delta : Int
  deriving DecidableEq, Repr

/-! ## `Command` (`PluginCommand.h`) -/

/-- The tags of `Command::Type` that the setters use. -/
inductive Command.Type where
  | SetParamValue
  | SetParamString
  | SetParamStringShort
  | SetBypass
  | SetProgram
  | SendMidi
  | SendSysex
  | SetTempo
  | SetTimeSignature
  | SetTransportPlaying
  | SetTransportRecording
  | SetTransportAutomationWriting
  | SetTransportAutomationReading
  | SetTransportCycleActive
  | SetTransportCycleStart
  | SetTransportCycleEnd
  | SetTransportPosition
  deriving DecidableEq, Repr

/-- The members of the anonymous union of `Command` that the setters write.
`empty` is the union right after `Command(Type)`, nothing written yet. -/
inductive Command.Payload where
  | empty
  | i (i : Int)
  | d (d : FloatBits)
  | paramValue (index : Int) (value : FloatBits) (offset : Int)
  | paramString (offset : Int) (index : Int) (size : Nat) (str : Ptr)
  | paramStringShort (offset : Int) (index : Int) (pstr : List Cell)
  | timeSig (num : Int) (denom : Int)
  | midi (data : List Byte) (delta : Int) (detune : FloatBits)
  | sysex (data : Ptr) (size : Nat) (delta : Int)
  deriving DecidableEq, Repr

/-- A `Command`: the type tag and the union. -/
structure Command where
  type : Command.Type
  payload : Command.Payload
  deriving DecidableEq, Repr

/-- The array `paramStringShort.pstr` of a command just constructed: one
length byte and room for `maxShortStringSize` characters, nothing written. -/
def Command.freshPstr (maxShortStringSize : Nat) : List Cell :=
  List.replicate (maxShortStringSize + 1) none

/-- Conversion of a `bool` to `int32_t`. -/
def boolToInt (b : Bool) : Int := if b then 1 else 0

/-! ## `DeferredPlugin` (`DeferredPlugin.h`)

Every setter is given the hook `pushCommand` of the concrete plugin and the
state `σ` that hook works on. The two setters that call `new` also thread the
memory. -/

namespace DeferredPlugin

variable {σ : Type}

/-- The overload `setParameter(int index, float value, int sampleOffset)`. -/
def setParameter (pushCommand : Command → σ → σ)
    (index : Int) (value : FloatBits) (sampleOffset : Int) (s : σ) : σ :=
  let command : Command := ⟨.SetParamValue, .paramValue index value sampleOffset⟩
  pushCommand command s

/-- The overload `setParameter(int index, std::string_view str, int
sampleOffset)`. `maxShortStringSize` is `Command::maxShortStringSize`. The
result is the returned `bool`, the memory and the state of the plugin. -/
def setParameterStr (maxShortStringSize : Nat) (pushCommand : Command → σ → σ)
    (index : Int) (str : StringView) (sampleOffset : Int) (h : Heap) (s : σ) :
    Bool × Heap × σ :=
  let size := str.size
  if size > maxShortStringSize then
    let (h1, buf) := h.new (size + 1)
    let h2 := h1.memcpy buf str.data (size + 1)
    let command : Command := ⟨.SetParamString, .paramString sampleOffset index size buf⟩
    (true, h2, pushCommand command s)
  else
    let pstr0 := Command.freshPstr maxShortStringSize
    let pstr1 := pstr0.set 0 (some (size % 256))
    let pstr2 := writeCells pstr1 1 (h.readN str.data size)
    let command : Command :=
      ⟨.SetParamStringShort, .paramStringShort sampleOffset index pstr2⟩
    (true, h, pushCommand command s)

/-- The setter `setBypass(Bypass state)`. -/
def setBypass (pushCommand : Command → σ → σ) (state : Bypass) (s : σ) : σ :=
  pushCommand ⟨.SetBypass, .i state.val⟩ s

/-- The setter `setProgram(int program)`. -/
def setProgram (pushCommand : Command → σ → σ) (program : Int) (s : σ) : σ :=
  pushCommand ⟨.SetProgram, .i program⟩ s

/-- The setter `sendMidiEvent(const MidiEvent& event)`. -/
def sendMidiEvent (pushCommand : Command → σ → σ) (event : MidiEvent) (s : σ) : σ :=
  pushCommand ⟨.SendMidi, .midi event.data event.delta event.detune⟩ s

/-- The setter `sendSysexEvent(const SysexEvent& event)`. -/
def sendSysexEvent (pushCommand : Command → σ → σ) (event : SysexEvent)
    (h : Heap) (s : σ) : Heap × σ :=
  let (h1, data) := h.new event.size
  let h2 := h1.memcpy data event.data event.size
  let command : Command := ⟨.SendSysex, .sysex data event.size event.delta⟩
  (h2, pushCommand command s)

/-- The setter `setTempoBPM(double tempo)`. -/
def setTempoBPM (pushCommand : Command → σ → σ) (tempo : FloatBits) (s : σ) : σ :=
  pushCommand ⟨.SetTempo, .d tempo⟩ s

/-- The setter `setTimeSignature(int numerator, int denominator)`. -/
def setTimeSignature (pushCommand : Command → σ → σ)
    (numerator denominator : Int) (s : σ) : σ :=
  pushCommand ⟨.SetTimeSignature, .timeSig numerator denominator⟩ s

/-- The setter `setTransportPlaying(bool play)`. -/
def setTransportPlaying (pushCommand : Command → σ → σ) (play : Bool) (s : σ) : σ :=
  pushCommand ⟨.SetTransportPlaying, .i (boolToInt play)⟩ s

/-- The setter `setTransportRecording(bool record)`. -/
def setTransportRecording (pushCommand : Command → σ → σ) (record : Bool) (s : σ) : σ :=
  pushCommand ⟨.SetTransportRecording, .i (boolToInt record)⟩ s

/-- The setter `setTransportAutomationWriting(bool writing)`. -/
def setTransportAutomationWriting (pushCommand : Command → σ → σ)
    (writing : Bool) (s : σ) : σ :=
  pushCommand ⟨.SetTransportAutomationWriting, .i (boolToInt writing)⟩ s

/-- The setter `setTransportAutomationReading(bool reading)`. -/
def setTransportAutomationReading (pushCommand : Command → σ → σ)
    (reading : Bool) (s : σ) : σ :=
  pushCommand ⟨.SetTransportAutomationReading, .i (boolToInt reading)⟩ s

/-- The setter `setTransportCycleActive(bool active)`. -/
def setTransportCycleActive (pushCommand : Command → σ → σ) (active : Bool) (s : σ) : σ :=
  pushCommand ⟨.SetTransportCycleActive, .i (boolToInt active)⟩ s

/-- The setter `setTransportCycleStart(double beat)`. -/
def setTransportCycleStart (pushCommand : Command → σ → σ) (beat : FloatBits) (s : σ) : σ :=
  pushCommand ⟨.SetTransportCycleStart, .d beat⟩ s

/-- The setter `setTransportCycleEnd(double beat)`. -/
def setTransportCycleEnd (pushCommand : Command → σ → σ) (beat : FloatBits) (s : σ) : σ :=
  pushCommand ⟨.SetTransportCycleEnd, .d beat⟩ s

/-- The setter `setTransportPosition(double beat)`. -/
def setTransportPosition (pushCommand : Command → σ → σ) (beat : FloatBits) (s : σ) : σ :=
  pushCommand ⟨.SetTransportPosition, .d beat⟩ s

/-- A hook that only records the commands it is given, in call order. -/
def record (command : Command) (log : List Command) : List Command :=
  log ++ [command]

/-- One call of a setter, with its arguments. -/
inductive Call where
  | setParameter (index : Int) (value : FloatBits) (sampleOffset : Int)
  | setParameterStr (index : Int) (str : StringView) (sampleOffset : Int)
  | setBypass (state : Bypass)
  | setProgram (program : Int)
  | sendMidiEvent (event : MidiEvent)
  | sendSysexEvent (event : SysexEvent)
  | setTempoBPM (tempo : FloatBits)
  | setTimeSignature (numerator denominator : Int)
  | setTransportPlaying (play : Bool)
  | setTransportRecording (rec : Bool)
  | setTransportAutomationWriting (writing : Bool)
  | setTransportAutomationReading (reading : Bool)
  | setTransportCycleActive (active : Bool)
  | setTransportCycleStart (beat : FloatBits)
  | setTransportCycleEnd (beat : FloatBits)
  | setTransportPosition (beat : FloatBits)
  deriving DecidableEq, Repr

/-- Perform one call on a plugin whose hook is `pushCommand`. -/
def Call.run (maxShortStringSize : Nat) (pushCommand : Command → σ → σ) :
    Call → Heap → σ → Heap × σ
  | .setParameter index value sampleOffset, h, s =>
      (h, DeferredPlugin.setParameter pushCommand index value sampleOffset s)
  | .setParameterStr index str sampleOffset, h, s =>
      (DeferredPlugin.setParameterStr maxShortStringSize pushCommand index str sampleOffset h s).2
  | .setBypass state, h, s => (h, DeferredPlugin.setBypass pushCommand state s)
  | .setProgram program, h, s => (h, DeferredPlugin.setProgram pushCommand program s)
  | .sendMidiEvent event, h, s => (h, DeferredPlugin.sendMidiEvent pushCommand event s)
  | .sendSysexEvent event, h, s => DeferredPlugin.sendSysexEvent pushCommand event h s
  | .setTempoBPM tempo, h, s => (h, DeferredPlugin.setTempoBPM pushCommand tempo s)
  | .setTimeSignature n d, h, s => (h, DeferredPlugin.setTimeSignature pushCommand n d s)
  | .setTransportPlaying b, h, s => (h, DeferredPlugin.setTransportPlaying pushCommand b s)
  | .setTransportRecording b, h, s => (h, DeferredPlugin.setTransportRecording pushCommand b s)
  | .setTransportAutomationWriting b, h, s =>
      (h, DeferredPlugin.setTransportAutomationWriting pushCommand b s)
  | .setTransportAutomationReading b, h, s =>
      (h, DeferredPlugin.setTransportAutomationReading pushCommand b s)
  | .setTransportCycleActive b, h, s =>
      (h, DeferredPlugin.setTransportCycleActive pushCommand b s)
  | .setTransportCycleStart beat, h, s =>
      (h, DeferredPlugin.setTransportCycleStart pushCommand beat s)
  | .setTransportCycleEnd beat, h, s =>
      (h, DeferredPlugin.setTransportCycleEnd pushCommand beat s)
  | .setTransportPosition beat, h, s =>
      (h, DeferredPlugin.setTransportPosition pushCommand beat s)

/-- The tags the operation of a call may put on its command. -/
def Call.tags : Call → List Command.Type
  | .setParameter .. => [.SetParamValue]
  | .setParameterStr .. => [.SetParamString, .SetParamStringShort]
  | .setBypass .. => [.SetBypass]
  | .setProgram .. => [.SetProgram]
  | .sendMidiEvent .. => [.SendMidi]
  | .sendSysexEvent .. => [.SendSysex]
  | .setTempoBPM .. => [.SetTempo]
  | .setTimeSignature .. => [.SetTimeSignature]
  | .setTransportPlaying .. => [.SetTransportPlaying]
  | .setTransportRecording .. => [.SetTransportRecording]
  | .setTransportAutomationWriting .. => [.SetTransportAutomationWriting]
  | .setTransportAutomationReading .. => [.SetTransportAutomationReading]
  | .setTransportCycleActive .. => [.SetTransportCycleActive]
  | .setTransportCycleStart .. => [.SetTransportCycleStart]
  | .setTransportCycleEnd .. => [.SetTransportCycleEnd]
  | .setTransportPosition .. => [.SetTransportPosition]

end DeferredPlugin

/-! ## `PluginClient` (`PluginClient.h`) -/

/-- The fields of a `PluginClient` that are plain data. -/
structure PluginClient where
  id_ : Nat
  commands_ : List Command
  program_ : Int
  latency_ : Int
  deriving DecidableEq, Repr

/-- The override `PluginClient::pushCommand`: `commands_.push_back(cmd)`. -/
def PluginClient.pushCommand (cmd : Command) (self : PluginClient) : PluginClient :=
  { self with commands_ := self.commands_ ++ [cmd] }

/-- A sequence of calls of `pushCommand`, first to last. -/
def PluginClient.pushCommands (cmds : List Command) (self : PluginClient) : PluginClient :=
  cmds.foldl (fun client cmd => client.pushCommand cmd) self

/-! ## `ThreadedPlugin` (`ThreadedPlugin.h`) -/

/-- An array of two vectors of commands, `std::vector<Command> x[2]`. -/
structure Buffers where
  b0 : List Command
  b1 : List Command
  deriving DecidableEq, Repr

/-- The element `x[i]`; an index other than 0 and 1 is outside the array. -/
def Buffers.get? (x : Buffers) (i : Int) : Option (List Command) :=
  if i = 0 then some x.b0 else if i = 1 then some x.b1 else none

/-- The call `x[i].push_back(c)`; `none` when `i` is outside the array. -/
def Buffers.pushBack? (x : Buffers) (i : Int) (c : Command) : Option Buffers :=
  if i = 0 then some { x with b0 := x.b0 ++ [c] }
  else if i = 1 then some { x with b1 := x.b1 ++ [c] }
  else none

/-- The command and event buffers of a `ThreadedPlugin` and the plain data
beside them. -/
structure ThreadedPlugin where
  commands_ : Buffers
  events_ : Buffers
  current_ : Int
  program_ : Int
  blockSize_ : Int
  deriving DecidableEq, Repr

/-- The expression `!current_` used as an index. -/
def lnot (i : Int) : Int := if i = 0 then 1 else 0

/-- The override `ThreadedPlugin::pushCommand`:
`commands_[current_].push_back(command)`. -/
def ThreadedPlugin.pushCommand (command : Command) (self : ThreadedPlugin) :
    Option ThreadedPlugin :=
  (self.commands_.pushBack? self.current_ command).map
    fun commands => { self with commands_ := commands }

/-- A sequence of calls of `pushCommand`, first to last. -/
def ThreadedPlugin.pushCommands : List Command → ThreadedPlugin → Option ThreadedPlugin
  | [], self => some self
  | c :: rest, self => (self.pushCommand c).bind (ThreadedPlugin.pushCommands rest)

/-- The method `ThreadedPlugin::pushEvent`:
`events_[!current_].push_back(event)`. -/
def ThreadedPlugin.pushEvent (event : Command) (self : ThreadedPlugin) :
    Option ThreadedPlugin :=
  (self.events_.pushBack? (lnot self.current_) event).map
    fun events => { self with events_ := events }

/-! ## `_Channel`, `RTChannel`, `NRTChannel` (`PluginBridge.h`)

`ShmChannel` is declared in `ShmInterface.h`. A method of `_Channel` is given
the operation of `ShmChannel` it calls and the state `χ` of the channel that
`channel_` points to. -/

/-- A `std::unique_lock<Mutex>`: the mutex it refers to, if any, and whether
it owns the lock. -/
structure UniqueLock where
  mutex : Option Nat
  owns : Bool
  deriving DecidableEq, Repr

/-- A default-constructed `std::unique_lock`, which is also what a moved-from
one is. -/
def UniqueLock.empty : UniqueLock := ⟨none, false⟩

/-- The object `_Channel<Mutex>`: the address of its `ShmChannel` and its
lock. `RTChannel` and `NRTChannel` are this template at two mutex types and
share every method. -/
structure _Channel where
  channel_ : Nat
  lock_ : UniqueLock
  deriving DecidableEq, Repr

namespace _Channel

variable {χ : Type}

/-- The constructor `_Channel(ShmChannel& channel)`. -/
def mk1 (clear : χ → χ) (addr : Nat) (channel : χ) : _Channel × χ :=
  (⟨addr, UniqueLock.empty⟩, clear channel)

/-- The constructor `_Channel(ShmChannel& channel, std::unique_lock<Mutex>
lock)`. -/
def mk2 (clear : χ → χ) (addr : Nat) (lock : UniqueLock) (channel : χ) : _Channel × χ :=
  (⟨addr, lock⟩, clear channel)

/-- The move constructor `_Channel(_Channel&& other)`: the new object and what
is left of `other`. -/
def move (other : _Channel) : _Channel × _Channel :=
  (⟨other.channel_, other.lock_⟩, { other with lock_ := UniqueLock.empty })

/-- The method `addCommand(const void* cmd, size_t size)`. -/
def addCommand (addMessage : List Byte → Nat → χ → Bool × χ)
    (_self : _Channel) (cmd : List Byte) (size : Nat) (channel : χ) : Bool × χ :=
  addMessage cmd size channel

/-- The method `send()`. -/
def send (post waitReply : χ → χ) (_self : _Channel) (channel : χ) : χ :=
  waitReply (post channel)

end _Channel

/-- A message as a channel holds it: the size written in its frame and the
bytes. -/
structure ShmMessage where
  size : Nat
  data : List Byte
  deriving DecidableEq, Repr

/-- Modelled from the spec: `ShmChannel` (`ShmInterface.h`) is not among the
sources. The spec describes it as one lane of a shared-memory message region
with a capacity, holding framed messages, a frame being a header and the
payload. -/
structure ShmChannel where
  capacity : Nat
  headerSize : Nat
  messages : List ShmMessage
  deriving DecidableEq, Repr

namespace ShmChannel

/-- Modelled from the spec: the framed size of a payload of `size` bytes,
"header size + payload". -/
def framedSize (ch : ShmChannel) (size : Nat) : Nat :=
  ch.headerSize + size

/-- Modelled from the spec: the bytes of the region the held messages take. -/
def used (ch : ShmChannel) : Nat :=
  (ch.messages.map fun m => ch.framedSize m.size).sum

/-- Modelled from the spec: the remaining capacity of the channel. -/
def remaining (ch : ShmChannel) : Nat :=
  ch.capacity - ch.used

/-- Modelled from the spec: `ShmChannel::clear` empties the channel. -/
def clear (ch : ShmChannel) : ShmChannel :=
  { ch with messages := [] }

/-- Modelled from the spec: `ShmChannel::addMessage` "append one framed
message, fails if it would not fit". -/
def addMessage (data : List Byte) (size : Nat) (ch : ShmChannel) : Bool × ShmChannel :=
  if ch.framedSize size ≤ ch.remaining then
    (true, { ch with messages := ch.messages ++ [⟨size, data.take size⟩] })
  else
    (false, ch)

end ShmChannel

/-! ## Who calls what on a channel -/

/-- One call of an operation of `ShmChannel`. -/
inductive ShmOp where
  | clear
  | addMessage (size : Nat)
  | post
  | waitReply
  | getMessage
  deriving DecidableEq, Repr

/-- A channel that only records the operations called on it, in call order. -/
abbrev ShmTrace := List ShmOp

/-- The recording `clear`. -/
def ShmTrace.clear (t : ShmTrace) : ShmTrace := t ++ [.clear]

/-- The recording `addMessage`; it reports success. -/
def ShmTrace.addMessage (_data : List Byte) (size : Nat) (t : ShmTrace) : Bool × ShmTrace :=
  (true, t ++ [.addMessage size])

/-- The recording `post`. -/
def ShmTrace.post (t : ShmTrace) : ShmTrace := t ++ [.post]

/-- The recording `waitReply`. -/
def ShmTrace.waitReply (t : ShmTrace) : ShmTrace := t ++ [.waitReply]

/-! ## Moving and destroying a `_Channel` -/

/-- The destructor of `std::unique_lock`: it unlocks its mutex when it owns
the lock. The result lists the mutexes unlocked. -/
def UniqueLock.destroy (l : UniqueLock) : List Nat :=
  match l.owns, l.mutex with
  | true, some m => [m]
  | _, _ => []

/-- The implicit destructor of `_Channel`: it destroys `lock_`; `channel_` is
a plain pointer. The result lists the mutexes unlocked. -/
def _Channel.destroy (self : _Channel) : List Nat :=
  self.lock_.destroy

/-- The move constructor `_Channel(_Channel&& other)` together with the state
of the channel `other.channel_` points to: the body of the constructor is
empty, the channel is handed through. -/
def _Channel.moveCtor {χ : Type} (other : _Channel) (channel : χ) :
    (_Channel × _Channel) × χ :=
  (_Channel.move other, channel)

/-- A chain of `n` moves starting at `first`, each object moved from the one
before: the moved-from objects, oldest first, and the last object. -/
def _Channel.moveChain : Nat → _Channel → List _Channel × _Channel
  | 0, first => ([], first)
  | n + 1, first =>
    let chain := _Channel.moveChain n (_Channel.move first).1
    ((_Channel.move first).2 :: chain.1, chain.2)

/-! ## `PluginBridge` (`PluginBridge.h`) -/

namespace PluginBridge

/-- The constant `queueSize`. -/
def queueSize : Nat := 1024

/-- The constant `nrtRequestSize`. -/
def nrtRequestSize : Nat := 65536

/-- The constant `rtRequestSize`. -/
def rtRequestSize : Nat := 65536

/-- The enumerator `Channel::UISend = 0`. -/
def Channel.UISend : Nat := 0

/-- The enumerator `Channel::UIReceive`, one more than the enumerator before
it. -/
def Channel.UIReceive : Nat := Channel.UISend + 1

/-- The enumerator `Channel::NRT`, one more than the enumerator before it. -/
def Channel.NRT : Nat := Channel.UIReceive + 1

end PluginBridge

/-! ## Sequences of setter calls and the consumer of the commands -/

/-- Perform calls of setters one after the other. -/
def DeferredPlugin.runCalls {σ : Type} (maxShortStringSize : Nat)
    (pushCommand : Command → σ → σ) : List DeferredPlugin.Call → Heap → σ → Heap × σ
  | [], h, s => (h, s)
  | call :: rest, h, s =>
    DeferredPlugin.runCalls maxShortStringSize pushCommand rest
      (call.run maxShortStringSize pushCommand h s).1
      (call.run maxShortStringSize pushCommand h s).2

/-- Modelled from the spec: the heap buffer a command owns. The specification
names the two variants that own heap memory, `SetParamString` and
`SendSysex`; the variant is selected by the type tag. -/
def Command.owned (c : Command) : Option Ptr :=
  match c.type, c.payload with
  | .SetParamString, .paramString _ _ _ str => some str
  | .SendSysex, .sysex data _ _ => some data
  | _, _ => none

/-- The buffers owned by a list of commands, in order. -/
def Command.ownedBlocks (cs : List Command) : List Nat :=
  cs.filterMap fun c => c.owned.map Ptr.block

/-- What the consumer has done: the memory, the blocks it released in order
and the commands it applied to the wrapped plugin in order. -/
structure Consumed where
  heap : Heap
  released : List Nat
  applied : List Command
  deriving DecidableEq, Repr

/-- Modelled from the spec: the consumer of one pending command. The code
that drains the commands (`PluginClient::sendCommands`,
`ThreadedPlugin::dispatchCommands`, the destructors) is in `.cpp` files that
are not among the sources. By the specification the buffer of a command is
"either freed after being applied, or freed if the command is discarded
unapplied". -/
def Consumed.consume (apply : Bool) (c : Command) (k : Consumed) : Consumed :=
  let k1 : Consumed := if apply then { k with applied := k.applied ++ [c] } else k
  match c.owned with
  | some p => { k1 with heap := k1.heap.free p.block, released := k1.released ++ [p.block] }
  | none => k1

/-- Modelled from the spec: the consumer takes every pending command once, in
order; `applies c` tells whether the command is applied or discarded. -/
def Consumed.drain (applies : Command → Bool) : List Command → Consumed → Consumed
  | [], k => k
  | c :: rest, k => Consumed.drain applies rest (Consumed.consume (applies c) c k)

/-- The memory and the client after the calls `calls` on a client that has
nothing pending. -/
def PluginClient.afterCalls (maxShortStringSize : Nat) (calls : List DeferredPlugin.Call)
    (h : Heap) (client : PluginClient) : Heap × PluginClient :=
  DeferredPlugin.runCalls maxShortStringSize PluginClient.pushCommand calls h
    { client with commands_ := [] }

/-- What the consumer has done once it has taken every command pending after
the calls `calls`. -/
def PluginClient.afterDrain (maxShortStringSize : Nat) (calls : List DeferredPlugin.Call)
    (h : Heap) (client : PluginClient) (applies : Command → Bool) : Consumed :=
  Consumed.drain applies
    (PluginClient.afterCalls maxShortStringSize calls h client).2.commands_
    ⟨(PluginClient.afterCalls maxShortStringSize calls h client).1, [], []⟩

end vst

/-! ## Object implementations (`Source/Objects/ImplementationBase.cpp`)

The string hash `hash` that the two `switch` statements use is declared
outside the sources; it is a parameter. An address (`t_gobj*`, `t_canvas*`)
is a natural number. -/

/-- The classes deriving from `ImplementationBase` that `createImplementation`
constructs; `KeyObject` with the kind given to its constructor. -/
inductive ImplKind where
  | SubpatchImpl
  | CanvasActiveObject
  | CanvasMouseObject
  | CanvasVisibleObject
  | CanvasZoomObject
  | CanvasEditObject
  | KeyObjectKey
  | KeyObjectKeyName
  | KeyObjectKeyUp
  | MouseObject
  deriving DecidableEq, Repr

/-- An object deriving from `ImplementationBase`: its class, the `t_gobj*` it
was constructed with and how often `update()` has run on it. -/
structure Implementation where
  kind : ImplKind
  ptr : Nat
  updates : Nat
  deriving DecidableEq, Repr

namespace ImplementationBase

/-- The constructor `ImplementationBase(t_gobj* obj, PluginProcessor*
processor)`, which runs `update()` once. -/
def construct (kind : ImplKind) (obj : Nat) : Implementation :=
  ⟨kind, obj, 1⟩

/-- The method `update()`, as far as it is counted. -/
def update (impl : Implementation) : Implementation :=
  { impl with updates := impl.updates + 1 }

/-- The function `ImplementationBase::hasImplementation(char const* type)`. -/
def hasImplementation (hash : String → Nat) (type : String) : Bool :=
  if hash type = hash "canvas" then true
  else if hash type = hash "graph" then true
  else if hash type = hash "key" then true
  else if hash type = hash "keyname" then true
  else if hash type = hash "keyup" then true
  else if hash type = hash "canvas.active" then true
  else if hash type = hash "canvas.mouse" then true
  else if hash type = hash "canvas.vis" then true
  else if hash type = hash "canvas.zoom" then true
  else if hash type = hash "canvas.edit" then true
  else if hash type = hash "mouse" then true
  else false

/-- The function `ImplementationBase::createImplementation(String const& type,
t_gobj* ptr, PluginProcessor* pd)`; `none` is `nullptr`. -/
def createImplementation (hash : String → Nat) (type : String) (ptr : Nat) :
    Option Implementation :=
  if hash type = hash "canvas" then some (construct .SubpatchImpl ptr)
  else if hash type = hash "graph" then some (construct .SubpatchImpl ptr)
  else if hash type = hash "canvas.active" then some (construct .CanvasActiveObject ptr)
  else if hash type = hash "canvas.mouse" then some (construct .CanvasMouseObject ptr)
  else if hash type = hash "canvas.vis" then some (construct .CanvasVisibleObject ptr)
  else if hash type = hash "canvas.zoom" then some (construct .CanvasZoomObject ptr)
  else if hash type = hash "canvas.edit" then some (construct .CanvasEditObject ptr)
  else if hash type = hash "key" then some (construct .KeyObjectKey ptr)
  else if hash type = hash "keyname" then some (construct .KeyObjectKeyName ptr)
  else if hash type = hash "keyup" then some (construct .KeyObjectKeyUp ptr)
  else if hash type = hash "mouse" then some (construct .MouseObject ptr)
  else none

end ImplementationBase

/-- What `pd::Interface::getObjectClassName` returns for an object of
`canvas_class` and for one of `clone_class`. The function is given the `t_pd`
of the object, which is its class; the names themselves come from the class
table of Pure Data, outside the sources. -/
structure ClassNames where
  canvas : String
  clone : String
  deriving DecidableEq, Repr

mutual
/-- A `t_glist` (`t_canvas`): the address of its `gl_obj.te_g` and the objects
of its `gl_list`, in `g_next` order. -/
inductive Glist where
  | mk (addr : Nat) (gl_list : List Gobj)
/-- An element of a `gl_list`: an object of `canvas_class`, which is a
`t_canvas`; an object of `clone_class` with the instances that
`clone_get_instance` returns for `0 <= i < clone_get_n`; or an object of
another class, with its class name. -/
inductive Gobj where
  | canvas (sub : Glist)
  | clone (addr : Nat) (instances : List Glist)
  | object (addr : Nat) (name : String)
end

/-- A collected `t_gobj*`: the address, and the class name that
`getObjectClassName(&ptr->g_pd)` reads through it. -/
structure GobjPtr where
  addr : Nat
  name : String
  deriving DecidableEq, Repr

/-- The member `objectImplementations`, a `std::map` from `t_gobj*` to
`std::unique_ptr<ImplementationBase>`: one entry per key, `none` for a null
pointer. The order of the entries here is the order of insertion, not the
order of the keys. -/
abbrev ImplementationMap := List (Nat × Option Implementation)

namespace ObjectImplementationManager

mutual
/-- The method `getImplementationsForPatch(t_canvas* patch)`. -/
def getImplementationsForPatch (hash : String → Nat) (names : ClassNames) :
    Glist → List GobjPtr
  | .mk _ gl_list => forObjects hash names gl_list
/-- The loop `for (t_gobj* y = glist->gl_list; y; y = y->g_next)` of
`getImplementationsForPatch`. -/
def forObjects (hash : String → Nat) (names : ClassNames) : List Gobj → List GobjPtr
  | [] => []
  | y :: rest => forObject hash names y ++ forObjects hash names rest
/-- The body of that loop for one object `y`. -/
def forObject (hash : String → Nat) (names : ClassNames) : Gobj → List GobjPtr
  | .canvas (.mk addr gl_list) =>
    forObjects hash names gl_list ++
      (if ImplementationBase.hasImplementation hash names.canvas
        then [⟨addr, names.canvas⟩] else [])
  | .clone addr instances =>
    forInstances hash names instances ++
      (if ImplementationBase.hasImplementation hash names.clone
        then [⟨addr, names.clone⟩] else [])
  | .object addr name =>
    if ImplementationBase.hasImplementation hash name then [⟨addr, name⟩] else []
/-- The loop `for (int i = 0; i < clone_get_n(y); i++)` of
`getImplementationsForPatch`. -/
def forInstances (hash : String → Nat) (names : ClassNames) : List Glist → List GobjPtr
  | [] => []
  | .mk addr gl_list :: rest =>
    forObjects hash names gl_list ++ [⟨addr, names.canvas⟩] ++ forInstances hash names rest
end

/-- The call `objectImplementations.count(ptr)`. -/
def count (m : ImplementationMap) (ptr : Nat) : Bool :=
  m.any fun e => e.1 == ptr

/-- The assignment `objectImplementations[ptr] = value`. -/
def assign (m : ImplementationMap) (ptr : Nat) (value : Option Implementation) :
    ImplementationMap :=
  if count m ptr then m.map fun e => if e.1 == ptr then (ptr, value) else e
  else m ++ [(ptr, value)]

/-- The call `objectImplementations[ptr]->update()`; `none` when the entry is
a null pointer, or absent, which `operator[]` turns into a null pointer. -/
def updateAt (m : ImplementationMap) (ptr : Nat) : Option ImplementationMap :=
  match m.lookup ptr with
  | some (some impl) => some (assign m ptr (some (ImplementationBase.update impl)))
  | _ => none

/-- The first loop of `handleAsyncUpdate`: erase every entry whose key is not
found in `allImplementations`. -/
def removeUnused (allImplementations : List GobjPtr) (m : ImplementationMap) :
    ImplementationMap :=
  m.filter fun e => allImplementations.any fun p => p.addr == e.1

/-- The second loop of `handleAsyncUpdate`. -/
def createAndUpdate (hash : String → Nat) :
    List GobjPtr → ImplementationMap → Option ImplementationMap
  | [], m => some m
  | ptr :: rest, m =>
    let m1 :=
      if !count m ptr.addr then
        assign m ptr.addr (ImplementationBase.createImplementation hash ptr.name ptr.addr)
      else m
    (updateAt m1 ptr.addr).bind (createAndUpdate hash rest)

/-- The method `handleAsyncUpdate()`, given the canvases of
`pd_getcanvaslist()` in `gl_next` order; `none` when it calls `update()`
through a null pointer. -/
def handleAsyncUpdate (hash : String → Nat) (names : ClassNames) (canvaslist : List Glist)
    (objectImplementations : ImplementationMap) : Option ImplementationMap :=
  let allImplementations := canvaslist.flatMap (getImplementationsForPatch hash names)
  createAndUpdate hash allImplementations (removeUnused allImplementations objectImplementations)

/-- The call `objectImplementations.erase(y)`. -/
def erase (m : ImplementationMap) (ptr : Nat) : ImplementationMap :=
  m.filter fun e => !(e.1 == ptr)

mutual
/-- The method `clearObjectImplementationsForPatch(t_canvas* patch)`. -/
def clearObjectImplementationsForPatch : Glist → ImplementationMap → ImplementationMap
  | .mk _ gl_list, m => clearObjects gl_list m
/-- The loop `for (t_gobj* y = glist->gl_list; y; y = y->g_next)` of
`clearObjectImplementationsForPatch`. -/
def clearObjects : List Gobj → ImplementationMap → ImplementationMap
  | [], m => m
  | y :: rest, m => clearObjects rest (clearObject y m)
/-- The body of that loop for one object `y`. -/
def clearObject : Gobj → ImplementationMap → ImplementationMap
  | .canvas (.mk addr gl_list), m => erase (clearObjects gl_list m) addr
  | .clone addr instances, m => erase (clearInstances instances m) addr
  | .object addr _, m => erase m addr
/-- The loop `for (int i = 0; i < clone_get_n(y); i++)` of
`clearObjectImplementationsForPatch`. -/
def clearInstances : List Glist → ImplementationMap → ImplementationMap
  | [], m => m
  | .mk _ gl_list :: rest, m => clearInstances rest (clearObjects gl_list m)
end

end ObjectImplementationManager

/-! ## Text objects (`Source/Objects/TextObject.h`)

A character is its code point and a `String` the list of its characters.
An `int` has 32 bits: the result of `*` and `+` on `int` is reduced to the
range from `-2^31` to `2^31 - 1` by adding or subtracting a multiple of
`2^32`, which is what the compiled code does when the exact result does not
fit. -/

/-- The carriage return. -/
def CR : Nat := 13

/-- The newline. -/
def LF : Nat := 10

/-- The semicolon. -/
def SEMI : Nat := 59

/-- The space. -/
def SPACE : Nat := 32

namespace JuceString

/-- The scan of `String::replace`: every occurrence of `stringToReplace`,
found from left to right, is replaced by `stringToInsert`, and the search
goes on after the inserted text. `skip` is the number of characters of the
occurrence just replaced that are still to be passed over. -/
def replaceFrom (stringToReplace stringToInsert : List Nat) : Nat → List Nat → List Nat
  | _, [] => []
  | skip + 1, _ :: rest => replaceFrom stringToReplace stringToInsert skip rest
  | 0, c :: rest =>
    if stringToReplace != [] && stringToReplace.isPrefixOf (c :: rest) then
      stringToInsert ++
        replaceFrom stringToReplace stringToInsert (stringToReplace.length - 1) rest
    else
      c :: replaceFrom stringToReplace stringToInsert 0 rest

/-- The method `String::replace(stringToReplace, stringToInsert)`. -/
def replace (text stringToReplace stringToInsert : List Nat) : List Nat :=
  replaceFrom stringToReplace stringToInsert 0 text

/-- The method `String::trimEnd()`: it walks back from the end while the
character is whitespace and cuts the text there. `isWhitespace` is
`CharacterFunctions::isWhitespace`. -/
def trimEnd (isWhitespace : Nat → Bool) (text : List Nat) : List Nat :=
  (text.reverse.dropWhile isWhitespace).reverse

end JuceString

/-- A single-precision value that is an integer, as that integer. Only such
values occur in the height computed for a text object. -/
abbrev Float32 := Int

namespace Float32

/-- The spacing of the single-precision numbers around `a`: 1 below `2^24`,
and doubled with every further power of two. -/
def ulpFrom : Nat → Nat → Nat → Nat
  | 0, u, _ => u
  | fuel + 1, u, a => if a < 16777216 * u then u else ulpFrom fuel (2 * u) a

/-- Rounding of a natural number to the nearest single-precision number, a
tie going to the one with the even significand. -/
def roundNat (a : Nat) : Nat :=
  let u := ulpFrom 104 1 a
  let q := a / u
  let r := a % u
  if 2 * r < u then q * u
  else if u < 2 * r then (q + 1) * u
  else if q % 2 = 0 then q * u
  else (q + 1) * u

/-- Rounding of an integer to the nearest single-precision number. -/
def round (z : Int) : Float32 :=
  if z < 0 then -(roundNat z.natAbs : Int) else (roundNat z.natAbs : Int)

/-- The conversion of an `int` to `float`. -/
def ofInt (z : Int) : Float32 := round z

/-- The sum of two integer-valued `float`s. -/
def add (a b : Float32) : Float32 := round (a + b)

/-- The difference of two integer-valued `float`s. -/
def sub (a b : Float32) : Float32 := round (a - b)

/-- The conversion of an integer-valued `float` to `int`. -/
def toInt (a : Float32) : Int := a

end Float32

namespace Int32

/-- The integer is in the range of `int`. -/
abbrev fits (z : Int) : Prop := -2147483648 ≤ z ∧ z < 2147483648

/-- The `int` that an exact result becomes: the integer of the range of `int`
that differs from it by a multiple of `2^32`. -/
def wrap (z : Int) : Int := (z + 2147483648) % 4294967296 - 2147483648

/-- The operator `*` on `int`. -/
def mul (a b : Int) : Int := wrap (a * b)

/-- The operator `+` on `int`. -/
def add (a b : Int) : Int := wrap (a + b)

end Int32

/-- A `Rectangle<int>`. -/
structure Rectangle where
  x : Int
  y : Int
  w : Int
  h : Int
  deriving DecidableEq, Repr

namespace TextObjectHelper

/-- The static member `minWidth`. -/
def minWidth : Int := 3

/-- The operator `%` on `int`, which truncates towards zero. -/
def rem (a b : Int) : Int := Int.tmod a b

/-- The function `std::clamp(v, lo, hi)`. -/
def clamp (v lo hi : Int) : Int :=
  if v < lo then lo else if hi < v then hi else v

/-- The function `recalculateTextObjectBounds`. Its inputs are what it reads:
`x` and `y` from `getObjectBounds`, `fontWidth` from `glist_fontwidth`,
`idealTextWidth` from `getIdealWidthForText(currentText)`, `charWidth` from
`getWidthInChars(obj)`, whether `currentText` is empty, and `getNumLines` for
`currentText` as a function of the width and the font height. The result is
the rectangle and `numLines`. -/
def recalculateTextObjectBounds (x y fontWidth idealTextWidth charWidth : Int)
    (textIsEmpty : Bool) (getNumLines : Int → Int → Int)
    (applyOffset : Bool) (maxIolets : Int) : Rectangle × Int :=
  let fontHeight : Int := 15
  let offset := if applyOffset then rem idealTextWidth fontWidth else 0
  let w0 :=
    if textIsEmpty then Int32.mul (max charWidth minWidth) fontWidth
    else if charWidth = 0 then
      clamp idealTextWidth (Int32.mul minWidth fontWidth) (Int32.mul fontWidth 60)
    else Int32.add (Int32.mul (max charWidth minWidth) fontWidth) offset
  let w := max w0 (Int32.mul maxIolets 18)
  let numLines := getNumLines w fontHeight
  let h := Float32.toInt
    (Float32.add (Float32.ofInt (Int32.mul numLines fontHeight))
      (Float32.sub 21 (Float32.ofInt fontHeight)))
  (⟨x, y, w, h⟩, numLines)

/-- The function `getIdealWidthForText`, given what
`CachedStringWidth<15>::calculateStringWidth` returns for each line of the
text. -/
def getIdealWidthForText (lineWidths : List Int) : Int :=
  lineWidths.foldl (fun w lineWidth => max (Int32.add lineWidth 14) w) minWidth

/-- The function `fixNewlines(String text)`. -/
def fixNewlines (isWhitespace : Nat → Bool) (text : List Nat) : List Nat :=
  let text1 := JuceString.replace text [CR] []
  let text2 := JuceString.replace text1 [SEMI, LF] [CR]
  let text3 := JuceString.replace text2 [LF] [SPACE]
  let text4 := JuceString.replace text3 [CR] [SEMI, LF]
  JuceString.trimEnd isWhitespace text4

/-- Every newline of the text comes right after a semicolon, `prev` being the
character before the text. -/
def newlinesAfterSemicolon (prev : Nat) : List Nat → Prop
  | [] => True
  | c :: rest => (c = LF → prev = SEMI) ∧ newlinesAfterSemicolon c rest

/-- What `fixNewlines` is meant to do to a text without carriage returns: a
semicolon followed by a newline is kept, any other newline becomes a
space. -/
def keepPairs : List Nat → List Nat
  | [] => []
  | c :: rest =>
    match rest with
    | [] => (if c = LF then SPACE else c) :: []
    | d :: rest2 =>
      if c = SEMI ∧ d = LF then SEMI :: LF :: keepPairs rest2
      else (if c = LF then SPACE else c) :: keepPairs (d :: rest2)

end TextObjectHelper

namespace vst

/-! ## Concrete inputs used to instantiate the theorems -/

namespace Sample

/-- A memory with one block, the five characters of "hello" and a terminating
zero, and a second block of four bytes. -/
def memory : Heap :=
  ⟨[some [some 104, some 101, some 108, some 108, some 111, some 0],
    some [some 240, some 1, some 2, some 247]]⟩

/-- The view of "hello" in `memory`. -/
def hello : StringView := ⟨⟨0, 0⟩, 5⟩

/-- A sysex event on the second block of `memory`. -/
def sysex : SysexEvent := ⟨⟨1, 0⟩, 4, 12⟩

/-- A channel of 16 bytes with an 8-byte frame header that already holds one
message of 2 bytes. -/
def channel : ShmChannel := ⟨16, 8, [⟨2, [1, 2]⟩]⟩

/-- A memory where the four characters "abcd" occur twice: in the first block
followed by the character "X", in the second followed by a zero byte. -/
def twice : Heap :=
  ⟨[some [some 97, some 98, some 99, some 100, some 88],
    some [some 97, some 98, some 99, some 100, some 0]]⟩

/-- The view of the first "abcd" of `twice`. -/
def abcdThenX : StringView := ⟨⟨0, 0⟩, 4⟩

/-- The view of the second "abcd" of `twice`. -/
def abcdThenZero : StringView := ⟨⟨1, 0⟩, 4⟩

/-- A client with nothing pending. -/
def client : PluginClient := ⟨1, [], 0, 0⟩

/-- Three calls, of which the first and the last create a buffer when
`maxShortStringSize == 4`. -/
def calls : List DeferredPlugin.Call :=
  [.setParameterStr 7 hello 3, .setProgram 2, .sendSysexEvent sysex]

end Sample

end vst

namespace PatchSample

/-- A polynomial string hash, for running the two `switch` statements. -/
def hash (s : String) : Nat :=
  s.data.foldl (fun h c => 31 * h + c.toNat) 0

/-- The class names of Pure Data for a canvas and for a clone. -/
def names : ClassNames := ⟨"canvas", "clone"⟩

/-- One root canvas at address 10 holding a `mouse` object, an `osc~` object,
a subpatch with a `key` object, and a clone with one instance that holds a
`canvas.zoom` object. -/
def canvaslist : List Glist :=
  [.mk 10 [.object 11 "mouse", .object 12 "osc~",
    .canvas (.mk 13 [.object 14 "key"]),
    .clone 15 [.mk 16 [.object 17 "canvas.zoom"]]]]

/-- A map with an entry for the `mouse` object and one for an object that is
gone. -/
def implementations : ImplementationMap :=
  [(11, some ⟨.MouseObject, 11, 2⟩), (99, some ⟨.KeyObjectKey, 99, 3⟩)]

/-- The root canvas of `canvaslist`. -/
def root : Glist :=
  .mk 10 [.object 11 "mouse", .object 12 "osc~",
    .canvas (.mk 13 [.object 14 "key"]),
    .clone 15 [.mk 16 [.object 17 "canvas.zoom"]]]

/-- The characters that `iswspace` accepts in the C locale. -/
def isWhitespace (c : Nat) : Bool :=
  c == 32 || (9 ≤ c && c ≤ 13)

end PatchSample

namespace vst

/-! ## Lemmas on the memory -/

theorem Heap.block_new_old (h : Heap) (n b : Nat) (hb : b ≠ h.blocks.length) :
    (h.new n).1.block b = h.block b := by
  unfold Heap.block Heap.new
  rcases Nat.lt_or_gt_of_ne hb with hlt | hgt
  · simp [List.getElem?_append_left hlt]
  · have h1 : (h.blocks ++ [some (List.replicate n none)])[b]? = none := by
      apply List.getElem?_eq_none; simp; omega
    have h2 : h.blocks[b]? = none := by
      apply List.getElem?_eq_none; omega
    simp [h1, h2]

theorem Heap.block_new_self (h : Heap) (n : Nat) :
    (h.new n).1.block h.blocks.length = List.replicate n none := by
  unfold Heap.block Heap.new
  simp

theorem Heap.cell_new (h : Heap) (n : Nat) (p : Ptr) (i : Nat) :
    (h.new n).1.cell p i = h.cell p i := by
  unfold Heap.cell
  by_cases hb : p.block = h.blocks.length
  · rw [hb, Heap.block_new_self]
    have : h.block h.blocks.length = [] := by
      unfold Heap.block; simp
    rw [this]
    by_cases hi : p.off + i < n
    · simp [List.getElem?_replicate, hi]
    · simp [List.getElem?_replicate, hi]
  · rw [Heap.block_new_old h n _ hb]

theorem Heap.readN_new (h : Heap) (n : Nat) (p : Ptr) (k : Nat) :
    (h.new n).1.readN p k = h.readN p k := by
  unfold Heap.readN
  apply List.map_congr_left
  intro i _
  exact Heap.cell_new h n p i

theorem Heap.readN_length (h : Heap) (p : Ptr) (n : Nat) : (h.readN p n).length = n := by
  simp [Heap.readN]

theorem Heap.block_writeN_self (h : Heap) (p : Ptr) (cells old : List Cell)
    (hold : h.blocks[p.block]? = some (some old)) :
    (h.writeN p cells).block p.block = writeCells old p.off cells := by
  have hlt : p.block < h.blocks.length := by
    by_contra hge
    rw [List.getElem?_eq_none (by omega)] at hold
    cases hold
  unfold Heap.writeN Heap.block
  simp [hold, hlt]

theorem Heap.block_writeN_other (h : Heap) (p : Ptr) (cells : List Cell) (b : Nat)
    (hb : p.block ≠ b) : (h.writeN p cells).block b = h.block b := by
  unfold Heap.writeN
  split
  · unfold Heap.block
    simp [List.getElem?_set_ne hb]
  · rfl

theorem Heap.block_free_other (h : Heap) (b' b : Nat) (hb : b' ≠ b) :
    (h.free b').block b = h.block b := by
  unfold Heap.free
  split
  · unfold Heap.block
    simp [List.getElem?_set_ne hb]
  · rfl

theorem Heap.block_apply_other (h : Heap) (op : HeapOp) (b : Nat) (hb : op.target ≠ b) :
    (h.apply op).block b = h.block b := by
  cases op with
  | store p cells => exact Heap.block_writeN_other h p cells b hb
  | release b' => exact Heap.block_free_other h b' b hb

theorem Heap.block_applyAll_other (ops : List HeapOp) (h : Heap) (b : Nat)
    (hops : ∀ op ∈ ops, op.target ≠ b) : (h.applyAll ops).block b = h.block b := by
  induction ops generalizing h with
  | nil => rfl
  | cons op rest ih =>
    have hrest : ∀ o ∈ rest, o.target ≠ b := fun o ho => hops o (List.mem_cons_of_mem _ ho)
    have hop : op.target ≠ b := hops op (List.mem_cons_self _ _)
    show ((h.apply op).applyAll rest).block b = h.block b
    rw [ih (h.apply op) hrest, Heap.block_apply_other h op b hop]

theorem Heap.readN_congr (h h' : Heap) (p : Ptr) (n : Nat)
    (hb : h'.block p.block = h.block p.block) : h'.readN p n = h.readN p n := by
  unfold Heap.readN Heap.cell
  rw [hb]

theorem writeCells_fresh (n : Nat) (cells : List Cell) (hlen : cells.length = n) :
    writeCells (List.replicate n none) 0 cells = cells := by
  unfold writeCells
  simp [hlen]

theorem Heap.readN_block (h : Heap) (b n : Nat) (hn : n ≤ (h.block b).length) :
    h.readN ⟨b, 0⟩ n = (h.block b).take n := by
  apply List.ext_getElem?
  intro i
  unfold Heap.readN Heap.cell
  by_cases hi : i < n
  · have hi2 : i < (h.block b).length := by omega
    simp [List.getElem?_map, List.getElem?_range hi, List.getElem?_take, hi, hi2]
  · have : (List.take n (h.block b))[i]? = none := by
      apply List.getElem?_eq_none; simp; omega
    rw [this]
    apply List.getElem?_eq_none; simp; omega

theorem Heap.readN_succ_take (h : Heap) (p : Ptr) (n : Nat) :
    (h.readN p (n + 1)).take n = h.readN p n := by
  unfold Heap.readN
  rw [List.range_succ, List.map_append]
  apply List.take_left'
  simp

theorem Heap.new_memcpy_block (h : Heap) (src : Ptr) (n : Nat) :
    ((h.new n).1.memcpy (h.new n).2 src n).block h.blocks.length = h.readN src n := by
  have hold : (h.new n).1.blocks[(h.new n).2.block]? = some (some (List.replicate n none)) := by
    simp [Heap.new]
  have hw := Heap.block_writeN_self (h.new n).1 (h.new n).2 ((h.new n).1.readN src n) _ hold
  have hb : (h.new n).2.block = h.blocks.length := rfl
  have ho : (h.new n).2.off = 0 := rfl
  rw [hb, ho] at hw
  unfold Heap.memcpy
  rw [hw, writeCells_fresh n _ (Heap.readN_length _ _ _), Heap.readN_new]

theorem Heap.new_memcpy_other (h : Heap) (src : Ptr) (n b : Nat) (hb : b ≠ h.blocks.length) :
    ((h.new n).1.memcpy (h.new n).2 src n).block b = h.block b := by
  unfold Heap.memcpy
  rw [Heap.block_writeN_other _ _ _ _ (by exact fun e => hb e.symm), Heap.block_new_old h n b hb]

theorem Heap.new_memcpy_blocks (h : Heap) (src : Ptr) (n : Nat) :
    ((h.new n).1.memcpy (h.new n).2 src n).blocks = h.blocks ++ [some (h.readN src n)] := by
  have hold : (h.new n).1.blocks[(h.new n).2.block]? = some (some (List.replicate n none)) := by
    simp [Heap.new]
  unfold Heap.memcpy Heap.writeN
  rw [hold]
  have ho : (h.new n).2.off = 0 := rfl
  simp only [ho]
  rw [writeCells_fresh n _ (Heap.readN_length _ _ _), Heap.readN_new]
  simp [Heap.new]

theorem Heap.readN_succ (h : Heap) (p : Ptr) (n : Nat) :
    h.readN p (n + 1) = h.readN p n ++ [h.cell p n] := by
  unfold Heap.readN
  rw [List.range_succ, List.map_append]
  rfl

theorem pstr_written (m n : Nat) (cells : List Cell) (hlen : cells.length = n) (hn : n ≤ m) :
    writeCells ((Command.freshPstr m).set 0 (some (n % 256))) 1 cells
      = some (n % 256) :: (cells ++ List.replicate (m - n) none) := by
  unfold writeCells Command.freshPstr
  rw [List.replicate_succ, List.set_cons_zero]
  have hfit : 1 + cells.length ≤ (some (n % 256) :: List.replicate m (none : Cell)).length := by
    simp; omega
  rw [if_pos hfit]
  have hd : 1 + cells.length = n + 1 := by omega
  rw [hd]
  simp

/-! ## Construction of commands -/

/-- C1. Every setter of `DeferredPlugin`, at every argument, calls the hook
`pushCommand` exactly once, with one command that carries the tag of its
operation: whatever the hook and its state are, the call is that single
application of the hook, and a hook that records its calls has recorded that
one command and nothing else. -/
theorem DeferredPlugin.setter_pushes_one_tagged_command
    (maxShortStringSize : Nat) (call : DeferredPlugin.Call) (h : Heap) :
    ∃ c : Command, c.type ∈ call.tags ∧
      (∀ log : List Command,
        (call.run maxShortStringSize DeferredPlugin.record h log).2 = log ++ [c]) ∧
      (∀ (σ : Type) (pushCommand : Command → σ → σ) (s : σ),
        (call.run maxShortStringSize pushCommand h s).2 = pushCommand c s) := by
  cases call with
  | setParameterStr index str sampleOffset =>
    by_cases hsize : str.size > maxShortStringSize
    · refine ⟨⟨.SetParamString, .paramString sampleOffset index str.size ⟨h.blocks.length, 0⟩⟩,
        by simp [DeferredPlugin.Call.tags], ?_, ?_⟩
      · intro log
        simp [DeferredPlugin.Call.run, DeferredPlugin.setParameterStr, hsize, Heap.new,
          DeferredPlugin.record]
      · intro σ pushCommand s
        simp [DeferredPlugin.Call.run, DeferredPlugin.setParameterStr, hsize, Heap.new]
    · refine ⟨⟨.SetParamStringShort, .paramStringShort sampleOffset index
          (writeCells ((Command.freshPstr maxShortStringSize).set 0 (some (str.size % 256))) 1
            (h.readN str.data str.size))⟩,
        by simp [DeferredPlugin.Call.tags], ?_, ?_⟩
      · intro log
        simp [DeferredPlugin.Call.run, DeferredPlugin.setParameterStr, hsize,
          DeferredPlugin.record]
      · intro σ pushCommand s
        simp [DeferredPlugin.Call.run, DeferredPlugin.setParameterStr, hsize]
  | sendSysexEvent event =>
    exact ⟨⟨.SendSysex, .sysex ⟨h.blocks.length, 0⟩ event.size event.delta⟩,
      by simp [DeferredPlugin.Call.tags], fun _ => rfl, fun _ _ _ => rfl⟩
  | setParameter index value sampleOffset =>
    exact ⟨⟨.SetParamValue, .paramValue index value sampleOffset⟩,
      by simp [DeferredPlugin.Call.tags], fun _ => rfl, fun _ _ _ => rfl⟩
  | setBypass state =>
    exact ⟨⟨.SetBypass, .i state.val⟩,
      by simp [DeferredPlugin.Call.tags], fun _ => rfl, fun _ _ _ => rfl⟩
  | setProgram program =>
    exact ⟨⟨.SetProgram, .i program⟩,
      by simp [DeferredPlugin.Call.tags], fun _ => rfl, fun _ _ _ => rfl⟩
  | sendMidiEvent event =>
    exact ⟨⟨.SendMidi, .midi event.data event.delta event.detune⟩,
      by simp [DeferredPlugin.Call.tags], fun _ => rfl, fun _ _ _ => rfl⟩
  | setTempoBPM tempo =>
    exact ⟨⟨.SetTempo, .d tempo⟩,
      by simp [DeferredPlugin.Call.tags], fun _ => rfl, fun _ _ _ => rfl⟩
  | setTimeSignature n d =>
    exact ⟨⟨.SetTimeSignature, .timeSig n d⟩,
      by simp [DeferredPlugin.Call.tags], fun _ => rfl, fun _ _ _ => rfl⟩
  | setTransportPlaying b =>
    exact ⟨⟨.SetTransportPlaying, .i (boolToInt b)⟩,
      by simp [DeferredPlugin.Call.tags], fun _ => rfl, fun _ _ _ => rfl⟩
  | setTransportRecording b =>
    exact ⟨⟨.SetTransportRecording, .i (boolToInt b)⟩,
      by simp [DeferredPlugin.Call.tags], fun _ => rfl, fun _ _ _ => rfl⟩
  | setTransportAutomationWriting b =>
    exact ⟨⟨.SetTransportAutomationWriting, .i (boolToInt b)⟩,
      by simp [DeferredPlugin.Call.tags], fun _ => rfl, fun _ _ _ => rfl⟩
  | setTransportAutomationReading b =>
    exact ⟨⟨.SetTransportAutomationReading, .i (boolToInt b)⟩,
      by simp [DeferredPlugin.Call.tags], fun _ => rfl, fun _ _ _ => rfl⟩
  | setTransportCycleActive b =>
    exact ⟨⟨.SetTransportCycleActive, .i (boolToInt b)⟩,
      by simp [DeferredPlugin.Call.tags], fun _ => rfl, fun _ _ _ => rfl⟩
  | setTransportCycleStart beat =>
    exact ⟨⟨.SetTransportCycleStart, .d beat⟩,
      by simp [DeferredPlugin.Call.tags], fun _ => rfl, fun _ _ _ => rfl⟩
  | setTransportCycleEnd beat =>
    exact ⟨⟨.SetTransportCycleEnd, .d beat⟩,
      by simp [DeferredPlugin.Call.tags], fun _ => rfl, fun _ _ _ => rfl⟩
  | setTransportPosition beat =>
    exact ⟨⟨.SetTransportPosition, .d beat⟩,
      by simp [DeferredPlugin.Call.tags], fun _ => rfl, fun _ _ _ => rfl⟩

/-- C2. On a `PluginClient` whose pending list is `L`, the calls
`pushCommand(c1)`, ..., `pushCommand(cn)` leave the pending list `L` followed
by `c1, ..., cn` in call order; every command occurs in it as often as in `L`
and in the calls together, and the other fields of the client are as before. -/
theorem PluginClient.pushCommands_appends (self : PluginClient) (cmds : List Command) :
    (self.pushCommands cmds).commands_ = self.commands_ ++ cmds ∧
    (∀ c : Command, (self.pushCommands cmds).commands_.count c
        = self.commands_.count c + cmds.count c) ∧
    (self.pushCommands cmds).commands_.length = self.commands_.length + cmds.length ∧
    (self.pushCommands cmds).id_ = self.id_ ∧
    (self.pushCommands cmds).program_ = self.program_ ∧
    (self.pushCommands cmds).latency_ = self.latency_ := by
  have key : ∀ (cs : List Command) (p : PluginClient),
      p.pushCommands cs = { p with commands_ := p.commands_ ++ cs } := by
    intro cs
    induction cs with
    | nil => intro p; simp [PluginClient.pushCommands]
    | cons c rest ih =>
      intro p
      have hstep : p.pushCommands (c :: rest) = (p.pushCommand c).pushCommands rest := rfl
      rw [hstep, ih]
      simp [PluginClient.pushCommand]
  rw [key]
  simp

/-- C3. In a `ThreadedPlugin` whose `current_` is 0 or 1, `pushCommand(c)`
appends `c` at the end of `commands_[current_]` and leaves
`commands_[1 - current_]`, both event buffers and `current_` as they were. The
same holds of any sequence of calls: the buffer that is being drained never
receives a command queued meanwhile. -/
theorem ThreadedPlugin.pushCommand_writes_current_only
    (self : ThreadedPlugin) (c : Command) (cmds : List Command)
    (hcur : self.current_ = 0 ∨ self.current_ = 1) :
    ∃ (after afterAll : ThreadedPlugin) (cur other : List Command),
      self.commands_.get? self.current_ = some cur ∧
      self.commands_.get? (1 - self.current_) = some other ∧
      self.pushCommand c = some after ∧
      after.commands_.get? self.current_ = some (cur ++ [c]) ∧
      after.commands_.get? (1 - self.current_) = some other ∧
      after.events_ = self.events_ ∧
      after.current_ = self.current_ ∧
      self.pushCommands cmds = some afterAll ∧
      afterAll.commands_.get? self.current_ = some (cur ++ cmds) ∧
      afterAll.commands_.get? (1 - self.current_) = some other ∧
      afterAll.events_ = self.events_ ∧
      afterAll.current_ = self.current_ := by
  have one : ∀ (p : ThreadedPlugin) (x : Command), p.current_ = 0 →
      p.pushCommand x = some { p with commands_ := { p.commands_ with b0 := p.commands_.b0 ++ [x] } } := by
    intro p x hp
    simp [ThreadedPlugin.pushCommand, Buffers.pushBack?, hp]
  have two : ∀ (p : ThreadedPlugin) (x : Command), p.current_ = 1 →
      p.pushCommand x = some { p with commands_ := { p.commands_ with b1 := p.commands_.b1 ++ [x] } } := by
    intro p x hp
    simp [ThreadedPlugin.pushCommand, Buffers.pushBack?, hp]
  have all0 : ∀ (xs : List Command) (p : ThreadedPlugin), p.current_ = 0 →
      p.pushCommands xs = some { p with commands_ := { p.commands_ with b0 := p.commands_.b0 ++ xs } } := by
    intro xs
    induction xs with
    | nil => intro p _; simp [ThreadedPlugin.pushCommands]
    | cons x rest ih =>
      intro p hp
      have hstep : p.pushCommands (x :: rest)
          = (p.pushCommand x).bind (ThreadedPlugin.pushCommands rest) := rfl
      rw [hstep, one p x hp, Option.some_bind, ih]
      · simp
      · exact hp
  have all1 : ∀ (xs : List Command) (p : ThreadedPlugin), p.current_ = 1 →
      p.pushCommands xs = some { p with commands_ := { p.commands_ with b1 := p.commands_.b1 ++ xs } } := by
    intro xs
    induction xs with
    | nil => intro p _; simp [ThreadedPlugin.pushCommands]
    | cons x rest ih =>
      intro p hp
      have hstep : p.pushCommands (x :: rest)
          = (p.pushCommand x).bind (ThreadedPlugin.pushCommands rest) := rfl
      rw [hstep, two p x hp, Option.some_bind, ih]
      · simp
      · exact hp
  rcases hcur with h0 | h1
  · refine ⟨_, _, self.commands_.b0, self.commands_.b1, ?_, ?_, one self c h0, ?_, ?_, rfl, rfl,
      all0 cmds self h0, ?_, ?_, rfl, rfl⟩ <;> simp [Buffers.get?, h0]
  · refine ⟨_, _, self.commands_.b1, self.commands_.b0, ?_, ?_, two self c h1, ?_, ?_, rfl, rfl,
      all1 cmds self h1, ?_, ?_, rfl, rfl⟩ <;> simp [Buffers.get?, h1]

/-- Witness of C3: a plugin with `current_ == 1` and one command pending in
each buffer. -/
theorem ThreadedPlugin.pushCommand_writes_current_only_witness :
    ∃ (after afterAll : ThreadedPlugin) (cur other : List Command),
      (⟨⟨[⟨.SetProgram, .i 1⟩], [⟨.SetProgram, .i 2⟩]⟩, ⟨[], []⟩, 1, 0, 64⟩ :
        ThreadedPlugin).commands_.get? 1 = some cur ∧
      (⟨⟨[⟨.SetProgram, .i 1⟩], [⟨.SetProgram, .i 2⟩]⟩, ⟨[], []⟩, 1, 0, 64⟩ :
        ThreadedPlugin).commands_.get? (1 - 1) = some other ∧
      (⟨⟨[⟨.SetProgram, .i 1⟩], [⟨.SetProgram, .i 2⟩]⟩, ⟨[], []⟩, 1, 0, 64⟩ :
        ThreadedPlugin).pushCommand ⟨.SetProgram, .i 3⟩ = some after ∧
      after.commands_.get? 1 = some (cur ++ [⟨.SetProgram, .i 3⟩]) ∧
      after.commands_.get? (1 - 1) = some other ∧
      after.events_ = ⟨[], []⟩ ∧
      after.current_ = 1 ∧
      (⟨⟨[⟨.SetProgram, .i 1⟩], [⟨.SetProgram, .i 2⟩]⟩, ⟨[], []⟩, 1, 0, 64⟩ :
        ThreadedPlugin).pushCommands [⟨.SetProgram, .i 4⟩, ⟨.SetProgram, .i 5⟩]
          = some afterAll ∧
      afterAll.commands_.get? 1
        = some (cur ++ [⟨.SetProgram, .i 4⟩, ⟨.SetProgram, .i 5⟩]) ∧
      afterAll.commands_.get? (1 - 1) = some other ∧
      afterAll.events_ = ⟨[], []⟩ ∧
      afterAll.current_ = 1 :=
  ThreadedPlugin.pushCommand_writes_current_only
    ⟨⟨[⟨.SetProgram, .i 1⟩], [⟨.SetProgram, .i 2⟩]⟩, ⟨[], []⟩, 1, 0, 64⟩
    ⟨.SetProgram, .i 3⟩ [⟨.SetProgram, .i 4⟩, ⟨.SetProgram, .i 5⟩] (Or.inr rfl)

/-- C4. For every index, sample offset and string, `setParameter(index, str,
sampleOffset)` pushes one command, tagged `SetParamString` exactly when
`str.size() > Command::maxShortStringSize` and `SetParamStringShort` exactly
when `str.size() <= Command::maxShortStringSize`; it returns `true`. -/
theorem DeferredPlugin.setParameterStr_tag_by_size
    (maxShortStringSize : Nat) (index : Int) (str : StringView) (sampleOffset : Int)
    (h : Heap) (log : List Command) :
    ∃ c : Command,
      (DeferredPlugin.setParameterStr maxShortStringSize DeferredPlugin.record
        index str sampleOffset h log).2.2 = log ++ [c] ∧
      (c.type = .SetParamString ↔ str.size > maxShortStringSize) ∧
      (c.type = .SetParamStringShort ↔ str.size ≤ maxShortStringSize) := by
  by_cases hsize : str.size > maxShortStringSize
  · refine ⟨⟨.SetParamString, .paramString sampleOffset index str.size ⟨h.blocks.length, 0⟩⟩,
      ?_, ?_, ?_⟩
    · simp [DeferredPlugin.setParameterStr, hsize, Heap.new, DeferredPlugin.record]
    · simp [hsize]
    · simp; omega
  · refine ⟨⟨.SetParamStringShort, .paramStringShort sampleOffset index
        (writeCells ((Command.freshPstr maxShortStringSize).set 0 (some (str.size % 256))) 1
          (h.readN str.data str.size))⟩, ?_, ?_, ?_⟩
    · simp [DeferredPlugin.setParameterStr, hsize, DeferredPlugin.record]
    · simp; omega
    · simp; omega

/-- C5. When `str.size() <= Command::maxShortStringSize`, and that constant
fits the length byte, `setParameter(index, str, sampleOffset)` pushes one
`SetParamStringShort` command that carries `index` and `sampleOffset` and a
pascal string `pstr` with `pstr[0] == str.size()` and `pstr[1 .. size]` the
characters of `str`: reading `pstr[0]` characters after the length byte gives
back `str`. -/
theorem DeferredPlugin.setParameterStr_short_is_pascal
    (maxShortStringSize : Nat) (index : Int) (str : StringView) (sampleOffset : Int)
    (h : Heap) (log : List Command)
    (hshort : str.size ≤ maxShortStringSize) (hbyte : maxShortStringSize ≤ 255) :
    ∃ pstr : List Cell,
      (DeferredPlugin.setParameterStr maxShortStringSize DeferredPlugin.record
        index str sampleOffset h log).2.2
        = log ++ [⟨.SetParamStringShort, .paramStringShort sampleOffset index pstr⟩] ∧
      pstr.length = maxShortStringSize + 1 ∧
      pstr[0]? = some (some str.size) ∧
      (pstr.drop 1).take str.size = str.chars h := by
  have hnot : ¬ str.size > maxShortStringSize := by omega
  have hmod : str.size % 256 = str.size := Nat.mod_eq_of_lt (by omega)
  have hw := pstr_written maxShortStringSize str.size (h.readN str.data str.size)
    (Heap.readN_length _ _ _) hshort
  rw [hmod] at hw
  refine ⟨some str.size :: (h.readN str.data str.size
      ++ List.replicate (maxShortStringSize - str.size) none), ?_, ?_, ?_, ?_⟩
  · simp [DeferredPlugin.setParameterStr, hnot, DeferredPlugin.record, hmod, hw]
  · simp [Heap.readN_length]; omega
  · simp
  · simp only [List.drop_succ_cons, List.drop_zero]
    exact List.take_left' (Heap.readN_length _ _ _)

/-- Witness of C5: "hello" with `maxShortStringSize == 5`, the boundary. -/
theorem DeferredPlugin.setParameterStr_short_is_pascal_witness :
    ∃ pstr : List Cell,
      (DeferredPlugin.setParameterStr 5 DeferredPlugin.record
        7 Sample.hello 3 Sample.memory []).2.2
        = [] ++ [⟨.SetParamStringShort, .paramStringShort 3 7 pstr⟩] ∧
      pstr.length = 5 + 1 ∧
      pstr[0]? = some (some Sample.hello.size) ∧
      (pstr.drop 1).take Sample.hello.size = Sample.hello.chars Sample.memory :=
  DeferredPlugin.setParameterStr_short_is_pascal 5 7 Sample.hello 3 Sample.memory []
    (by decide) (by decide)

/-- C6. When `str.size() > Command::maxShortStringSize`,
`setParameter(index, str, sampleOffset)` pushes one `SetParamString` command
with `paramString.index == index`, `paramString.offset == sampleOffset`,
`paramString.size == str.size()` and `paramString.str` the start of a block
that did not exist before the call; the memory after the call is the memory
before it, unchanged, followed by that one block, whose first `str.size()`
bytes are the characters of `str`. -/
theorem DeferredPlugin.setParameterStr_long_is_copy
    (maxShortStringSize : Nat) (index : Int) (str : StringView) (sampleOffset : Int)
    (h : Heap) (log : List Command)
    (hlong : maxShortStringSize < str.size) :
    ∃ (buf : Ptr) (last : Cell),
      (DeferredPlugin.setParameterStr maxShortStringSize DeferredPlugin.record
        index str sampleOffset h log).2.2
        = log ++ [⟨.SetParamString, .paramString sampleOffset index str.size buf⟩] ∧
      buf.off = 0 ∧
      h.blocks[buf.block]? = none ∧
      (DeferredPlugin.setParameterStr maxShortStringSize DeferredPlugin.record
        index str sampleOffset h log).2.1.blocks
        = h.blocks ++ [some (str.chars h ++ [last])] ∧
      (DeferredPlugin.setParameterStr maxShortStringSize DeferredPlugin.record
        index str sampleOffset h log).2.1.readN buf str.size = str.chars h := by
  have hgt : str.size > maxShortStringSize := hlong
  have hblocks := Heap.new_memcpy_blocks h str.data (str.size + 1)
  have hblock := Heap.new_memcpy_block h str.data (str.size + 1)
  have hres : DeferredPlugin.setParameterStr maxShortStringSize DeferredPlugin.record
      index str sampleOffset h log
      = (true, (h.new (str.size + 1)).1.memcpy (h.new (str.size + 1)).2 str.data (str.size + 1),
          log ++ [⟨.SetParamString, .paramString sampleOffset index str.size
            (h.new (str.size + 1)).2⟩]) := by
    simp [DeferredPlugin.setParameterStr, hgt, DeferredPlugin.record]
  refine ⟨⟨h.blocks.length, 0⟩, h.cell str.data str.size, ?_, rfl, ?_, ?_, ?_⟩
  · rw [hres]; rfl
  · simp
  · rw [hres]
    simp only []
    rw [hblocks, Heap.readN_succ]
    rfl
  · rw [hres]
    simp only []
    rw [Heap.readN_block _ _ _ (by rw [hblock, Heap.readN_length]; omega), hblock]
    exact Heap.readN_succ_take h str.data str.size

/-- Witness of C6: "hello" with `maxShortStringSize == 4`. -/
theorem DeferredPlugin.setParameterStr_long_is_copy_witness :
    ∃ (buf : Ptr) (last : Cell),
      (DeferredPlugin.setParameterStr 4 DeferredPlugin.record
        7 Sample.hello 3 Sample.memory []).2.2
        = [] ++ [⟨.SetParamString, .paramString 3 7 Sample.hello.size buf⟩] ∧
      buf.off = 0 ∧
      Sample.memory.blocks[buf.block]? = none ∧
      (DeferredPlugin.setParameterStr 4 DeferredPlugin.record
        7 Sample.hello 3 Sample.memory []).2.1.blocks
        = Sample.memory.blocks ++ [some (Sample.hello.chars Sample.memory ++ [last])] ∧
      (DeferredPlugin.setParameterStr 4 DeferredPlugin.record
        7 Sample.hello 3 Sample.memory []).2.1.readN buf Sample.hello.size
        = Sample.hello.chars Sample.memory :=
  DeferredPlugin.setParameterStr_long_is_copy 4 7 Sample.hello 3 Sample.memory [] (by decide)

/-- C7. For every sysex event, of any size, `sendSysexEvent(e)` pushes one
`SendSysex` command with `sysex.size == e.size`, `sysex.delta == e.delta` and
`sysex.data` the start of a block that did not exist before the call and holds
exactly the `e.size` bytes of `e.data`. Whatever is later stored into or
released among the blocks that existed before the call, the event's own buffer
among them, the bytes of the command stay the same. -/
theorem DeferredPlugin.sendSysexEvent_copies
    (e : SysexEvent) (h : Heap) (log : List Command) (later : List HeapOp)
    (hlater : ∀ op ∈ later, op.target < h.blocks.length) :
    ∃ data : Ptr,
      (DeferredPlugin.sendSysexEvent DeferredPlugin.record e h log).2
        = log ++ [⟨.SendSysex, .sysex data e.size e.delta⟩] ∧
      data.off = 0 ∧
      h.blocks[data.block]? = none ∧
      (DeferredPlugin.sendSysexEvent DeferredPlugin.record e h log).1.blocks
        = h.blocks ++ [some (h.readN e.data e.size)] ∧
      (DeferredPlugin.sendSysexEvent DeferredPlugin.record e h log).1.readN data e.size
        = h.readN e.data e.size ∧
      ((DeferredPlugin.sendSysexEvent DeferredPlugin.record e h log).1.applyAll later).readN
        data e.size = h.readN e.data e.size := by
  have hblocks := Heap.new_memcpy_blocks h e.data e.size
  have hblock := Heap.new_memcpy_block h e.data e.size
  have hres : DeferredPlugin.sendSysexEvent DeferredPlugin.record e h log
      = ((h.new e.size).1.memcpy (h.new e.size).2 e.data e.size,
          log ++ [⟨.SendSysex, .sysex (h.new e.size).2 e.size e.delta⟩]) := rfl
  have hread : ((h.new e.size).1.memcpy (h.new e.size).2 e.data e.size).readN
      ⟨h.blocks.length, 0⟩ e.size = h.readN e.data e.size := by
    rw [Heap.readN_block _ _ _ (by rw [hblock, Heap.readN_length]), hblock]
    exact List.take_of_length_le (by rw [Heap.readN_length])
  refine ⟨⟨h.blocks.length, 0⟩, ?_, rfl, ?_, ?_, ?_, ?_⟩
  · rw [hres]; rfl
  · simp
  · rw [hres]; exact hblocks
  · rw [hres]; exact hread
  · rw [hres]
    simp only []
    have hother : ∀ op ∈ later, op.target ≠ h.blocks.length :=
      fun op hop => Nat.ne_of_lt (hlater op hop)
    rw [Heap.readN_congr _ _ _ _ (Heap.block_applyAll_other later _ _ hother)]
    exact hread

/-- Witness of C7: the event's bytes are overwritten and its buffer released
after the call. -/
theorem DeferredPlugin.sendSysexEvent_copies_witness :
    ∃ data : Ptr,
      (DeferredPlugin.sendSysexEvent DeferredPlugin.record Sample.sysex Sample.memory []).2
        = [] ++ [⟨.SendSysex, .sysex data Sample.sysex.size Sample.sysex.delta⟩] ∧
      data.off = 0 ∧
      Sample.memory.blocks[data.block]? = none ∧
      (DeferredPlugin.sendSysexEvent DeferredPlugin.record Sample.sysex Sample.memory []).1.blocks
        = Sample.memory.blocks ++ [some (Sample.memory.readN Sample.sysex.data Sample.sysex.size)] ∧
      (DeferredPlugin.sendSysexEvent DeferredPlugin.record Sample.sysex Sample.memory []).1.readN
        data Sample.sysex.size = Sample.memory.readN Sample.sysex.data Sample.sysex.size ∧
      ((DeferredPlugin.sendSysexEvent DeferredPlugin.record Sample.sysex
          Sample.memory []).1.applyAll
            [.store ⟨1, 0⟩ [some 0, some 0, some 0, some 0], .release 1]).readN
        data Sample.sysex.size = Sample.memory.readN Sample.sysex.data Sample.sysex.size :=
  DeferredPlugin.sendSysexEvent_copies Sample.sysex Sample.memory []
    [.store ⟨1, 0⟩ [some 0, some 0, some 0, some 0], .release 1] (by decide)

/-- C8. The command pushed by a fixed-size setter carries the arguments:
`setParameter(index, value, sampleOffset)` gives `paramValue` these three;
`setProgram(p)` gives `i == p`; `setBypass(s)` gives `i` the integer value of
`s`; `setTempoBPM`, `setTransportCycleStart`, `setTransportCycleEnd` and
`setTransportPosition` give `d` the argument; `setTimeSignature(n, d)` gives
`timeSig.num == n`, `timeSig.denom == d`; a boolean transport setter gives
`i == 1` for `true` and `i == 0` for `false`; `sendMidiEvent(e)` gives `midi`
the `data`, `delta` and `detune` of `e`. -/
theorem DeferredPlugin.fixed_setters_carry_arguments
    (log : List Command) (index sampleOffset program n d : Int)
    (value tempo beat : FloatBits) (state : Bypass) (event : MidiEvent) :
    DeferredPlugin.setParameter DeferredPlugin.record index value sampleOffset log
      = log ++ [⟨.SetParamValue, .paramValue index value sampleOffset⟩] ∧
    DeferredPlugin.setProgram DeferredPlugin.record program log
      = log ++ [⟨.SetProgram, .i program⟩] ∧
    DeferredPlugin.setBypass DeferredPlugin.record state log
      = log ++ [⟨.SetBypass, .i state.val⟩] ∧
    DeferredPlugin.setTempoBPM DeferredPlugin.record tempo log
      = log ++ [⟨.SetTempo, .d tempo⟩] ∧
    DeferredPlugin.setTransportCycleStart DeferredPlugin.record beat log
      = log ++ [⟨.SetTransportCycleStart, .d beat⟩] ∧
    DeferredPlugin.setTransportCycleEnd DeferredPlugin.record beat log
      = log ++ [⟨.SetTransportCycleEnd, .d beat⟩] ∧
    DeferredPlugin.setTransportPosition DeferredPlugin.record beat log
      = log ++ [⟨.SetTransportPosition, .d beat⟩] ∧
    DeferredPlugin.setTimeSignature DeferredPlugin.record n d log
      = log ++ [⟨.SetTimeSignature, .timeSig n d⟩] ∧
    DeferredPlugin.setTransportPlaying DeferredPlugin.record true log
      = log ++ [⟨.SetTransportPlaying, .i 1⟩] ∧
    DeferredPlugin.setTransportPlaying DeferredPlugin.record false log
      = log ++ [⟨.SetTransportPlaying, .i 0⟩] ∧
    DeferredPlugin.setTransportRecording DeferredPlugin.record true log
      = log ++ [⟨.SetTransportRecording, .i 1⟩] ∧
    DeferredPlugin.setTransportRecording DeferredPlugin.record false log
      = log ++ [⟨.SetTransportRecording, .i 0⟩] ∧
    DeferredPlugin.setTransportAutomationWriting DeferredPlugin.record true log
      = log ++ [⟨.SetTransportAutomationWriting, .i 1⟩] ∧
    DeferredPlugin.setTransportAutomationWriting DeferredPlugin.record false log
      = log ++ [⟨.SetTransportAutomationWriting, .i 0⟩] ∧
    DeferredPlugin.setTransportAutomationReading DeferredPlugin.record true log
      = log ++ [⟨.SetTransportAutomationReading, .i 1⟩] ∧
    DeferredPlugin.setTransportAutomationReading DeferredPlugin.record false log
      = log ++ [⟨.SetTransportAutomationReading, .i 0⟩] ∧
    DeferredPlugin.setTransportCycleActive DeferredPlugin.record true log
      = log ++ [⟨.SetTransportCycleActive, .i 1⟩] ∧
    DeferredPlugin.setTransportCycleActive DeferredPlugin.record false log
      = log ++ [⟨.SetTransportCycleActive, .i 0⟩] ∧
    DeferredPlugin.sendMidiEvent DeferredPlugin.record event log
      = log ++ [⟨.SendMidi, .midi event.data event.delta event.detune⟩] := by
  refine ⟨rfl, rfl, rfl, rfl, rfl, rfl, rfl, rfl, rfl, rfl, rfl, rfl, rfl, rfl, rfl, rfl, rfl,
    rfl, rfl⟩

/-! ## Channels -/

/-- C9. `addCommand(cmd, size)` returns what `ShmChannel::addMessage(cmd,
size)` returns and does nothing else, whatever `addMessage` is. On a channel
as the specification describes it, a message whose framed size exceeds the
remaining capacity makes `addCommand` return `false` and leaves the channel
exactly as it was, and `addCommand` returns `true` exactly when the framed
message fits. -/
theorem _Channel.addCommand_rejects_oversized
    (self : _Channel) (ch : ShmChannel) (cmd : List Byte) (size : Nat)
    (hbig : ch.remaining < ch.framedSize size) :
    _Channel.addCommand ShmChannel.addMessage self cmd size ch = (false, ch) ∧
    (∀ (other : ShmChannel) (cmd2 : List Byte) (size2 : Nat),
      (_Channel.addCommand ShmChannel.addMessage self cmd2 size2 other).1
        = decide (other.framedSize size2 ≤ other.remaining)) ∧
    (∀ (χ : Type) (addMessage : List Byte → Nat → χ → Bool × χ) (c : χ),
      _Channel.addCommand addMessage self cmd size c = addMessage cmd size c) := by
  refine ⟨?_, ?_, fun _ _ _ => rfl⟩
  · have hnot : ¬ ch.framedSize size ≤ ch.remaining := by omega
    simp [_Channel.addCommand, ShmChannel.addMessage, hnot]
  · intro other cmd2 size2
    by_cases hfit : other.framedSize size2 ≤ other.remaining
    · simp [_Channel.addCommand, ShmChannel.addMessage, hfit]
    · simp [_Channel.addCommand, ShmChannel.addMessage, hfit]

/-- Witness of C9: 6 bytes remain in the channel and a message of 3 bytes
takes 11 with its frame. -/
theorem _Channel.addCommand_rejects_oversized_witness :
    _Channel.addCommand ShmChannel.addMessage ⟨2, UniqueLock.empty⟩ [7, 8, 9] 3 Sample.channel
      = (false, Sample.channel) ∧
    (∀ (other : ShmChannel) (cmd2 : List Byte) (size2 : Nat),
      (_Channel.addCommand ShmChannel.addMessage ⟨2, UniqueLock.empty⟩ cmd2 size2 other).1
        = decide (other.framedSize size2 ≤ other.remaining)) ∧
    (∀ (χ : Type) (addMessage : List Byte → Nat → χ → Bool × χ) (c : χ),
      _Channel.addCommand addMessage ⟨2, UniqueLock.empty⟩ [7, 8, 9] 3 c
        = addMessage [7, 8, 9] 3 c) :=
  _Channel.addCommand_rejects_oversized ⟨2, UniqueLock.empty⟩ Sample.channel [7, 8, 9] 3
    (by decide)

/-- C10. Both constructors of `_Channel`, the one without and the one with a
lock, call `clear` on the channel they are given, whatever `clear` is, and
keep its address and the lock. With `clear` as the specification describes
it, the channel holds no message right after construction, whatever it held
before, and its capacity is as before. -/
theorem _Channel.constructors_clear_channel
    (addr : Nat) (lock : UniqueLock) (ch : ShmChannel) :
    (_Channel.mk1 ShmChannel.clear addr ch).2.messages = [] ∧
    (_Channel.mk2 ShmChannel.clear addr lock ch).2.messages = [] ∧
    (_Channel.mk1 ShmChannel.clear addr ch).2.capacity = ch.capacity ∧
    (_Channel.mk2 ShmChannel.clear addr lock ch).2.capacity = ch.capacity ∧
    (_Channel.mk1 ShmChannel.clear addr ch).1 = ⟨addr, UniqueLock.empty⟩ ∧
    (_Channel.mk2 ShmChannel.clear addr lock ch).1 = ⟨addr, lock⟩ ∧
    (∀ (χ : Type) (clear : χ → χ) (c : χ),
      (_Channel.mk1 clear addr c).2 = clear c ∧
      (_Channel.mk2 clear addr lock c).2 = clear c) :=
  ⟨rfl, rfl, rfl, rfl, rfl, rfl, fun _ _ _ => ⟨rfl, rfl⟩⟩

/-- C11. The method `send()` is one call of `post()` followed by one call of
`waitReply()` on the channel of the object, whatever the two operations are,
and nothing else: a channel that records the operations called on it has
recorded `post`, then `waitReply`, after what it had recorded before. -/
theorem _Channel.send_is_post_then_waitReply (self : _Channel) :
    (∀ (χ : Type) (post waitReply : χ → χ) (channel : χ),
      _Channel.send post waitReply self channel = waitReply (post channel)) ∧
    (∀ t : ShmTrace,
      _Channel.send ShmTrace.post ShmTrace.waitReply self t = t ++ [.post, .waitReply]) := by
  refine ⟨fun _ _ _ _ => rfl, fun t => ?_⟩
  simp [_Channel.send, ShmTrace.post, ShmTrace.waitReply]

/-- C12. A call `setParameter(index, str, sampleOffset)` pushes one command.
When `str.size() <= Command::maxShortStringSize` the memory after the call is
the memory before it, no block is created, and the command is the inline
`SetParamStringShort`, which holds no pointer. When `str.size() >
Command::maxShortStringSize` exactly one block is created, of `str.size() + 1`
bytes, and the `SetParamString` command pushed points to its start. -/
theorem DeferredPlugin.setParameterStr_allocates_by_size
    (maxShortStringSize : Nat) (index : Int) (str : StringView) (sampleOffset : Int)
    (h : Heap) (log : List Command) :
    ∃ c : Command,
      (DeferredPlugin.setParameterStr maxShortStringSize DeferredPlugin.record
        index str sampleOffset h log).2.2 = log ++ [c] ∧
      (str.size ≤ maxShortStringSize →
        (DeferredPlugin.setParameterStr maxShortStringSize DeferredPlugin.record
          index str sampleOffset h log).2.1 = h ∧
        ∃ pstr, c = ⟨.SetParamStringShort, .paramStringShort sampleOffset index pstr⟩) ∧
      (maxShortStringSize < str.size →
        (∃ cells : List Cell, cells.length = str.size + 1 ∧
          (DeferredPlugin.setParameterStr maxShortStringSize DeferredPlugin.record
            index str sampleOffset h log).2.1.blocks = h.blocks ++ [some cells]) ∧
        c = ⟨.SetParamString, .paramString sampleOffset index str.size ⟨h.blocks.length, 0⟩⟩) := by
  by_cases hsize : str.size > maxShortStringSize
  · have hres : DeferredPlugin.setParameterStr maxShortStringSize DeferredPlugin.record
        index str sampleOffset h log
        = (true, (h.new (str.size + 1)).1.memcpy (h.new (str.size + 1)).2 str.data
            (str.size + 1),
            log ++ [⟨.SetParamString, .paramString sampleOffset index str.size
              (h.new (str.size + 1)).2⟩]) := by
      simp [DeferredPlugin.setParameterStr, hsize, DeferredPlugin.record]
    refine ⟨⟨.SetParamString, .paramString sampleOffset index str.size ⟨h.blocks.length, 0⟩⟩,
      ?_, ?_, ?_⟩
    · rw [hres]; rfl
    · intro hle; omega
    · intro _
      refine ⟨⟨h.readN str.data (str.size + 1), Heap.readN_length _ _ _, ?_⟩, rfl⟩
      rw [hres]
      exact Heap.new_memcpy_blocks h str.data (str.size + 1)
  · refine ⟨⟨.SetParamStringShort, .paramStringShort sampleOffset index
        (writeCells ((Command.freshPstr maxShortStringSize).set 0 (some (str.size % 256))) 1
          (h.readN str.data str.size))⟩, ?_, ?_, ?_⟩
    · simp [DeferredPlugin.setParameterStr, hsize, DeferredPlugin.record]
    · intro _
      refine ⟨?_, _, rfl⟩
      simp [DeferredPlugin.setParameterStr, hsize]
    · intro hlt; omega

/-- Witness of C12: "hello" is short for `maxShortStringSize == 5` and long
for `maxShortStringSize == 4`. -/
theorem DeferredPlugin.setParameterStr_allocates_by_size_witness :
    (∃ c : Command,
      (DeferredPlugin.setParameterStr 5 DeferredPlugin.record
        7 Sample.hello 3 Sample.memory []).2.2 = [] ++ [c] ∧
      (DeferredPlugin.setParameterStr 5 DeferredPlugin.record
        7 Sample.hello 3 Sample.memory []).2.1 = Sample.memory ∧
      ∃ pstr, c = ⟨.SetParamStringShort, .paramStringShort 3 7 pstr⟩) ∧
    (∃ c : Command,
      (DeferredPlugin.setParameterStr 4 DeferredPlugin.record
        7 Sample.hello 3 Sample.memory []).2.2 = [] ++ [c] ∧
      (∃ cells : List Cell, cells.length = Sample.hello.size + 1 ∧
        (DeferredPlugin.setParameterStr 4 DeferredPlugin.record
          7 Sample.hello 3 Sample.memory []).2.1.blocks
          = Sample.memory.blocks ++ [some cells]) ∧
      c = ⟨.SetParamString,
        .paramString 3 7 Sample.hello.size ⟨Sample.memory.blocks.length, 0⟩⟩) :=
  ⟨match DeferredPlugin.setParameterStr_allocates_by_size 5 7 Sample.hello 3
        Sample.memory [] with
    | ⟨c, hc, hshort, _⟩ => ⟨c, hc, hshort (by decide)⟩,
   match DeferredPlugin.setParameterStr_allocates_by_size 4 7 Sample.hello 3
        Sample.memory [] with
    | ⟨c, hc, _, hlong⟩ => ⟨c, hc, hlong (by decide)⟩⟩

/-- C14. For every index, string and sample offset, `setParameter(index, str,
sampleOffset)` returns `true`, and it has then called the hook `pushCommand`
once with a command that does not depend on the hook: neither the result nor
the command depends on what the plugin behind the hook does with the
string. -/
theorem DeferredPlugin.setParameterStr_returns_true
    (maxShortStringSize : Nat) (index : Int) (str : StringView) (sampleOffset : Int)
    (h : Heap) :
    ∃ c : Command, ∀ (σ : Type) (pushCommand : Command → σ → σ) (s : σ),
      (DeferredPlugin.setParameterStr maxShortStringSize pushCommand
        index str sampleOffset h s).1 = true ∧
      (DeferredPlugin.setParameterStr maxShortStringSize pushCommand
        index str sampleOffset h s).2.2 = pushCommand c s := by
  by_cases hsize : str.size > maxShortStringSize
  · refine ⟨⟨.SetParamString, .paramString sampleOffset index str.size ⟨h.blocks.length, 0⟩⟩,
      fun σ pushCommand s => ?_⟩
    simp [DeferredPlugin.setParameterStr, hsize, Heap.new]
  · refine ⟨⟨.SetParamStringShort, .paramStringShort sampleOffset index
        (writeCells ((Command.freshPstr maxShortStringSize).set 0 (some (str.size % 256))) 1
          (h.readN str.data str.size))⟩, fun σ pushCommand s => ?_⟩
    simp [DeferredPlugin.setParameterStr, hsize]

/-- C15. The capacities of the bridge are `queueSize == 1024`,
`rtRequestSize == 65536` and `nrtRequestSize == 65536`, the last two equal,
and the channel roles are numbered `UISend == 0`, `UIReceive == 1`,
`NRT == 2`. -/
theorem PluginBridge.capacities_and_roles :
    PluginBridge.queueSize = 1024 ∧
    PluginBridge.rtRequestSize = 65536 ∧
    PluginBridge.nrtRequestSize = 65536 ∧
    PluginBridge.rtRequestSize = PluginBridge.nrtRequestSize ∧
    PluginBridge.Channel.UISend = 0 ∧
    PluginBridge.Channel.UIReceive = 1 ∧
    PluginBridge.Channel.NRT = 2 :=
  ⟨rfl, rfl, rfl, rfl, rfl, rfl, rfl⟩

/-- C16. Move-constructing a `_Channel` leaves the state of the `ShmChannel`
as it is, gives the new object the same `channel_` and the lock of the source,
so that it owns the lock exactly when the source did, and leaves the source
owning nothing. Along a chain of moves of any length every moved-from object
unlocks nothing when it is destroyed and the last object is the only one that
unlocks: a lock owned at the start is unlocked once in all, by the last
object. -/
theorem _Channel.move_transfers_lock (other : _Channel) :
    (∀ (χ : Type) (channel : χ), (_Channel.moveCtor other channel).2 = channel) ∧
    (_Channel.move other).1.channel_ = other.channel_ ∧
    (_Channel.move other).1.lock_ = other.lock_ ∧
    ((_Channel.move other).1.lock_.owns = true ↔ other.lock_.owns = true) ∧
    (_Channel.move other).2.lock_.owns = false ∧
    (_Channel.move other).2.destroy = [] ∧
    (∀ n : Nat,
      (∀ o ∈ (_Channel.moveChain n other).1, o.destroy = [] ∧ o.channel_ = other.channel_) ∧
      (_Channel.moveChain n other).1.length = n ∧
      (_Channel.moveChain n other).2 = other ∧
      ((_Channel.moveChain n other).1.map _Channel.destroy).flatten
        ++ (_Channel.moveChain n other).2.destroy = other.destroy) ∧
    (∀ (addr m n : Nat),
      ((_Channel.moveChain n ⟨addr, ⟨some m, true⟩⟩).1.map _Channel.destroy).flatten = [] ∧
      (_Channel.moveChain n ⟨addr, ⟨some m, true⟩⟩).2.destroy = [m]) := by
  have chain : ∀ (n : Nat) (c : _Channel),
      (∀ o ∈ (_Channel.moveChain n c).1, o.destroy = [] ∧ o.channel_ = c.channel_) ∧
      (_Channel.moveChain n c).1.length = n ∧
      (_Channel.moveChain n c).2 = c := by
    intro n
    induction n with
    | zero => intro c; simp [_Channel.moveChain]
    | succ k ih =>
      intro c
      have hnew : (_Channel.move c).1 = c := rfl
      have hstep : _Channel.moveChain (k + 1) c
          = ((_Channel.move c).2 :: (_Channel.moveChain k c).1, (_Channel.moveChain k c).2) := by
        simp [_Channel.moveChain, hnew]
      obtain ⟨h1, h2, h3⟩ := ih c
      rw [hstep]
      refine ⟨?_, by simp [h2], h3⟩
      intro o ho
      rcases List.mem_cons.mp ho with rfl | hmem
      · exact ⟨rfl, rfl⟩
      · exact h1 o hmem
  have silent : ∀ (n : Nat) (c : _Channel),
      ((_Channel.moveChain n c).1.map _Channel.destroy).flatten = [] := by
    intro n c
    rw [List.flatten_eq_nil_iff]
    intro l hl
    obtain ⟨o, ho, rfl⟩ := List.mem_map.mp hl
    exact ((chain n c).1 o ho).1
  refine ⟨fun _ _ => rfl, rfl, rfl, Iff.rfl, rfl, rfl, ?_, ?_⟩
  · intro n
    refine ⟨(chain n other).1, (chain n other).2.1, (chain n other).2.2, ?_⟩
    rw [silent n other, (chain n other).2.2]
    rfl
  · intro addr m n
    refine ⟨silent n _, ?_⟩
    rw [(chain n _).2.2]
    rfl

/-- C17. In a `ThreadedPlugin` whose `current_` is 0 or 1, `pushEvent(e)`
appends `e` at the end of `events_[1 - current_]`, which is `events_[!current_]`
and is not the index `current_` that `pushCommand` writes, and leaves
`events_[current_]`, both command buffers and `current_` as they were. -/
theorem ThreadedPlugin.pushEvent_writes_other_only
    (self : ThreadedPlugin) (e : Command)
    (hcur : self.current_ = 0 ∨ self.current_ = 1) :
    ∃ (after : ThreadedPlugin) (other cur : List Command),
      lnot self.current_ = 1 - self.current_ ∧
      lnot self.current_ ≠ self.current_ ∧
      self.events_.get? (1 - self.current_) = some other ∧
      self.events_.get? self.current_ = some cur ∧
      self.pushEvent e = some after ∧
      after.events_.get? (1 - self.current_) = some (other ++ [e]) ∧
      after.events_.get? self.current_ = some cur ∧
      after.commands_ = self.commands_ ∧
      after.current_ = self.current_ := by
  rcases hcur with h0 | h1
  · refine ⟨{ self with events_ := { self.events_ with b1 := self.events_.b1 ++ [e] } },
      self.events_.b1, self.events_.b0, ?_, ?_, ?_, ?_, ?_, ?_, ?_, rfl, rfl⟩ <;>
      simp [lnot, Buffers.get?, ThreadedPlugin.pushEvent, Buffers.pushBack?, h0]
  · refine ⟨{ self with events_ := { self.events_ with b0 := self.events_.b0 ++ [e] } },
      self.events_.b0, self.events_.b1, ?_, ?_, ?_, ?_, ?_, ?_, ?_, rfl, rfl⟩ <;>
      simp [lnot, Buffers.get?, ThreadedPlugin.pushEvent, Buffers.pushBack?, h1]

/-- Witness of C17: a plugin with `current_ == 0` and one event in each
buffer. -/
theorem ThreadedPlugin.pushEvent_writes_other_only_witness :
    ∃ (after : ThreadedPlugin) (other cur : List Command),
      lnot 0 = 1 - 0 ∧
      lnot 0 ≠ 0 ∧
      (⟨⟨[], []⟩, ⟨[⟨.SendMidi, .midi [144, 60, 100, 0] 0 ⟨0⟩⟩], [⟨.SetProgram, .i 2⟩]⟩,
        0, 0, 64⟩ : ThreadedPlugin).events_.get? (1 - 0) = some other ∧
      (⟨⟨[], []⟩, ⟨[⟨.SendMidi, .midi [144, 60, 100, 0] 0 ⟨0⟩⟩], [⟨.SetProgram, .i 2⟩]⟩,
        0, 0, 64⟩ : ThreadedPlugin).events_.get? 0 = some cur ∧
      (⟨⟨[], []⟩, ⟨[⟨.SendMidi, .midi [144, 60, 100, 0] 0 ⟨0⟩⟩], [⟨.SetProgram, .i 2⟩]⟩,
        0, 0, 64⟩ : ThreadedPlugin).pushEvent ⟨.SetProgram, .i 3⟩ = some after ∧
      after.events_.get? (1 - 0) = some (other ++ [⟨.SetProgram, .i 3⟩]) ∧
      after.events_.get? 0 = some cur ∧
      after.commands_ = ⟨[], []⟩ ∧
      after.current_ = 0 :=
  ThreadedPlugin.pushEvent_writes_other_only
    ⟨⟨[], []⟩, ⟨[⟨.SendMidi, .midi [144, 60, 100, 0] 0 ⟨0⟩⟩], [⟨.SetProgram, .i 2⟩]⟩, 0, 0, 64⟩
    ⟨.SetProgram, .i 3⟩ (Or.inl rfl)

/-- C18. The block that `setParameter` creates for a long string is the
characters of the view followed by the byte that lies after the view in the
memory of the caller, not by a zero byte: with `maxShortStringSize == 3`, the
view "abcd" that is followed by "X" gives the block "abcdX", whose last byte
is not zero, and the equal view "abcd" that is followed by a zero byte, with
the same index and sample offset, gives a different block. -/
theorem DeferredPlugin.setParameterStr_long_copies_following_byte :
    Sample.abcdThenX.chars Sample.twice = Sample.abcdThenZero.chars Sample.twice ∧
    (DeferredPlugin.setParameterStr 3 DeferredPlugin.record
      7 Sample.abcdThenX 0 Sample.twice []).2.2
      = [⟨.SetParamString, .paramString 0 7 4 ⟨2, 0⟩⟩] ∧
    (DeferredPlugin.setParameterStr 3 DeferredPlugin.record
      7 Sample.abcdThenX 0 Sample.twice []).2.1.block 2
      = [some 97, some 98, some 99, some 100, some 88] ∧
    (DeferredPlugin.setParameterStr 3 DeferredPlugin.record
      7 Sample.abcdThenX 0 Sample.twice []).2.1.block 2
      ≠ Sample.abcdThenX.chars Sample.twice ++ [some 0] ∧
    (DeferredPlugin.setParameterStr 3 DeferredPlugin.record
      7 Sample.abcdThenZero 0 Sample.twice []).2.2
      = [⟨.SetParamString, .paramString 0 7 4 ⟨2, 0⟩⟩] ∧
    (DeferredPlugin.setParameterStr 3 DeferredPlugin.record
      7 Sample.abcdThenZero 0 Sample.twice []).2.1.block 2
      = [some 97, some 98, some 99, some 100, some 0] ∧
    (DeferredPlugin.setParameterStr 3 DeferredPlugin.record
      7 Sample.abcdThenX 0 Sample.twice []).2.1.block 2
      ≠ (DeferredPlugin.setParameterStr 3 DeferredPlugin.record
        7 Sample.abcdThenZero 0 Sample.twice []).2.1.block 2 := by
  decide


theorem Call.run_effect (maxShortStringSize : Nat) (call : DeferredPlugin.Call) (h : Heap) :
    ∃ (c : Command) (after : Heap),
      (∀ (σ : Type) (pushCommand : Command → σ → σ) (s : σ),
        call.run maxShortStringSize pushCommand h s = (after, pushCommand c s)) ∧
      ((after = h ∧ c.owned = none) ∨
        ((∃ cells, after.blocks = h.blocks ++ [some cells]) ∧
          c.owned = some ⟨h.blocks.length, 0⟩)) := by
  cases call with
  | setParameterStr index str sampleOffset =>
    by_cases hsize : str.size > maxShortStringSize
    · refine ⟨⟨.SetParamString, .paramString sampleOffset index str.size ⟨h.blocks.length, 0⟩⟩,
        (h.new (str.size + 1)).1.memcpy (h.new (str.size + 1)).2 str.data (str.size + 1),
        ?_, Or.inr ⟨⟨_, Heap.new_memcpy_blocks h str.data (str.size + 1)⟩, rfl⟩⟩
      intro σ pushCommand s
      simp [DeferredPlugin.Call.run, DeferredPlugin.setParameterStr, hsize, Heap.new]
    · refine ⟨⟨.SetParamStringShort, .paramStringShort sampleOffset index
          (writeCells ((Command.freshPstr maxShortStringSize).set 0 (some (str.size % 256))) 1
            (h.readN str.data str.size))⟩, h, ?_, Or.inl ⟨rfl, rfl⟩⟩
      intro σ pushCommand s
      simp [DeferredPlugin.Call.run, DeferredPlugin.setParameterStr, hsize]
  | sendSysexEvent event =>
    exact ⟨⟨.SendSysex, .sysex ⟨h.blocks.length, 0⟩ event.size event.delta⟩,
      (h.new event.size).1.memcpy (h.new event.size).2 event.data event.size,
      fun _ _ _ => rfl, Or.inr ⟨⟨_, Heap.new_memcpy_blocks h event.data event.size⟩, rfl⟩⟩
  | setParameter index value sampleOffset =>
    exact ⟨⟨.SetParamValue, .paramValue index value sampleOffset⟩, h, fun _ _ _ => rfl,
      Or.inl ⟨rfl, rfl⟩⟩
  | setBypass state =>
    exact ⟨⟨.SetBypass, .i state.val⟩, h, fun _ _ _ => rfl, Or.inl ⟨rfl, rfl⟩⟩
  | setProgram program =>
    exact ⟨⟨.SetProgram, .i program⟩, h, fun _ _ _ => rfl, Or.inl ⟨rfl, rfl⟩⟩
  | sendMidiEvent event =>
    exact ⟨⟨.SendMidi, .midi event.data event.delta event.detune⟩, h, fun _ _ _ => rfl,
      Or.inl ⟨rfl, rfl⟩⟩
  | setTempoBPM tempo =>
    exact ⟨⟨.SetTempo, .d tempo⟩, h, fun _ _ _ => rfl, Or.inl ⟨rfl, rfl⟩⟩
  | setTimeSignature n d =>
    exact ⟨⟨.SetTimeSignature, .timeSig n d⟩, h, fun _ _ _ => rfl, Or.inl ⟨rfl, rfl⟩⟩
  | setTransportPlaying b =>
    exact ⟨⟨.SetTransportPlaying, .i (boolToInt b)⟩, h, fun _ _ _ => rfl, Or.inl ⟨rfl, rfl⟩⟩
  | setTransportRecording b =>
    exact ⟨⟨.SetTransportRecording, .i (boolToInt b)⟩, h, fun _ _ _ => rfl, Or.inl ⟨rfl, rfl⟩⟩
  | setTransportAutomationWriting b =>
    exact ⟨⟨.SetTransportAutomationWriting, .i (boolToInt b)⟩, h, fun _ _ _ => rfl,
      Or.inl ⟨rfl, rfl⟩⟩
  | setTransportAutomationReading b =>
    exact ⟨⟨.SetTransportAutomationReading, .i (boolToInt b)⟩, h, fun _ _ _ => rfl,
      Or.inl ⟨rfl, rfl⟩⟩
  | setTransportCycleActive b =>
    exact ⟨⟨.SetTransportCycleActive, .i (boolToInt b)⟩, h, fun _ _ _ => rfl,
      Or.inl ⟨rfl, rfl⟩⟩
  | setTransportCycleStart beat =>
    exact ⟨⟨.SetTransportCycleStart, .d beat⟩, h, fun _ _ _ => rfl, Or.inl ⟨rfl, rfl⟩⟩
  | setTransportCycleEnd beat =>
    exact ⟨⟨.SetTransportCycleEnd, .d beat⟩, h, fun _ _ _ => rfl, Or.inl ⟨rfl, rfl⟩⟩
  | setTransportPosition beat =>
    exact ⟨⟨.SetTransportPosition, .d beat⟩, h, fun _ _ _ => rfl, Or.inl ⟨rfl, rfl⟩⟩

theorem runCalls_effect (maxShortStringSize : Nat) (calls : List DeferredPlugin.Call) :
    ∀ (h : Heap) (s : PluginClient),
    ∃ (cs : List Command) (news : List (Option (List Cell))),
      (DeferredPlugin.runCalls maxShortStringSize PluginClient.pushCommand calls h s).2
        = { s with commands_ := s.commands_ ++ cs } ∧
      (DeferredPlugin.runCalls maxShortStringSize PluginClient.pushCommand calls h s).1.blocks
        = h.blocks ++ news ∧
      (∀ x ∈ news, ∃ cells, x = some cells) ∧
      Command.ownedBlocks cs = List.range' h.blocks.length news.length := by
  induction calls with
  | nil =>
    intro h s
    exact ⟨[], [], by simp [DeferredPlugin.runCalls], by simp [DeferredPlugin.runCalls],
      by simp, by simp [Command.ownedBlocks]⟩
  | cons call rest ih =>
    intro h s
    obtain ⟨c, after, hrun, hcase⟩ := Call.run_effect maxShortStringSize call h
    have hstep : DeferredPlugin.runCalls maxShortStringSize PluginClient.pushCommand
        (call :: rest) h s
        = DeferredPlugin.runCalls maxShortStringSize PluginClient.pushCommand rest after
            (s.pushCommand c) := by
      simp [DeferredPlugin.runCalls, hrun PluginClient PluginClient.pushCommand s]
    obtain ⟨cs, news, h1, h2, h3, h4⟩ := ih after (s.pushCommand c)
    rw [hstep]
    rcases hcase with ⟨hsame, hown⟩ | ⟨⟨cells, hblocks⟩, hown⟩
    · subst hsame
      refine ⟨c :: cs, news, ?_, h2, h3, ?_⟩
      · rw [h1]; simp [PluginClient.pushCommand]
      · simp [Command.ownedBlocks, hown] at h4 ⊢
        exact h4
    · refine ⟨c :: cs, some cells :: news, ?_, ?_, ?_, ?_⟩
      · rw [h1]; simp [PluginClient.pushCommand]
      · rw [h2, hblocks]; simp
      · intro x hx
        rcases List.mem_cons.mp hx with rfl | hmem
        · exact ⟨cells, rfl⟩
        · exact h3 x hmem
      · have hlen : after.blocks.length = h.blocks.length + 1 := by rw [hblocks]; simp
        rw [hlen] at h4
        simp [Command.ownedBlocks, hown] at h4 ⊢
        rw [h4, List.range'_succ]

theorem Heap.free_blocks (h : Heap) (b : Nat) : (h.free b).blocks = h.blocks.set b none := by
  unfold Heap.free
  split
  · rfl
  · next hnone =>
    have hge : h.blocks.length ≤ b := by
      by_contra hlt
      have hlt2 : b < h.blocks.length := by omega
      rw [List.getElem?_eq_getElem hlt2] at hnone
      cases hnone
    rw [List.set_eq_of_length_le hge]

theorem Heap.freeAll_blocks (bs : List Nat) :
    ∀ h : Heap, (bs.foldl Heap.free h).blocks.length = h.blocks.length ∧
      ∀ b : Nat, (bs.foldl Heap.free h).blocks[b]?
        = if b ∈ bs ∧ b < h.blocks.length then some none else h.blocks[b]? := by
  induction bs with
  | nil => intro h; simp
  | cons x rest ih =>
    intro h
    obtain ⟨hlen, hget⟩ := ih (h.free x)
    have hl : (h.free x).blocks.length = h.blocks.length := by simp [Heap.free_blocks]
    refine ⟨by rw [List.foldl_cons, hlen, hl], fun b => ?_⟩
    rw [List.foldl_cons, hget b, hl, Heap.free_blocks]
    by_cases hb : b < h.blocks.length
    · by_cases hx : x = b
      · subst hx
        simp [hb]
      · by_cases hmem : b ∈ rest
        · simp [hb, hmem]
        · have hbx : ¬ b = x := fun e => hx e.symm
          simp [hb, hmem, hbx, List.getElem?_set_ne hx]
    · have hnone : h.blocks[b]? = none := List.getElem?_eq_none (by omega)
      have hnone2 : (h.blocks.set x none)[b]? = none :=
        List.getElem?_eq_none (by simp; omega)
      simp [hb, hnone, hnone2]

theorem Consumed.drain_effect (applies : Command → Bool) (cs : List Command) :
    ∀ k : Consumed,
      (Consumed.drain applies cs k).released = k.released ++ Command.ownedBlocks cs ∧
      (Consumed.drain applies cs k).heap = (Command.ownedBlocks cs).foldl Heap.free k.heap ∧
      (Consumed.drain applies cs k).applied = k.applied ++ cs.filter applies := by
  induction cs with
  | nil => intro k; simp [Consumed.drain, Command.ownedBlocks]
  | cons c rest ih =>
    intro k
    obtain ⟨h1, h2, h3⟩ := ih (Consumed.consume (applies c) c k)
    have hstep : Consumed.drain applies (c :: rest) k
        = Consumed.drain applies rest (Consumed.consume (applies c) c k) := rfl
    rw [hstep, h1, h2, h3]
    cases hown : c.owned with
    | none =>
      cases happ : applies c <;>
        simp [Consumed.consume, hown, happ, Command.ownedBlocks]
    | some p =>
      cases happ : applies c <;>
        simp [Consumed.consume, hown, happ, Command.ownedBlocks]

/-- C13. After any sequence of setter calls on a client with nothing pending,
let the consumer take every pending command once, applying or discarding each
as it likes. The blocks it releases are the buffers owned by the pending
commands, which are the blocks created by the calls, each once: a block
created by a call was live before the consumer ran, is released exactly once
and is released afterwards; a block that existed before the calls is not
released and is as it was. -/
theorem Consumed.each_buffer_released_once
    (maxShortStringSize : Nat) (calls : List DeferredPlugin.Call) (h : Heap)
    (client : PluginClient) (applies : Command → Bool) :
    (PluginClient.afterDrain maxShortStringSize calls h client applies).released
      = Command.ownedBlocks
          (PluginClient.afterCalls maxShortStringSize calls h client).2.commands_ ∧
    (PluginClient.afterDrain maxShortStringSize calls h client applies).released
      = List.range' h.blocks.length
          ((PluginClient.afterCalls maxShortStringSize calls h client).1.blocks.length
            - h.blocks.length) ∧
    (PluginClient.afterDrain maxShortStringSize calls h client applies).released.Nodup ∧
    (∀ b : Nat, h.blocks.length ≤ b →
      b < (PluginClient.afterCalls maxShortStringSize calls h client).1.blocks.length →
      (∃ cells, (PluginClient.afterCalls maxShortStringSize calls h client).1.blocks[b]?
        = some (some cells)) ∧
      (PluginClient.afterDrain maxShortStringSize calls h client applies).released.count b = 1 ∧
      (PluginClient.afterDrain maxShortStringSize calls h client applies).heap.blocks[b]?
        = some none) ∧
    (∀ b : Nat, b < h.blocks.length →
      (PluginClient.afterDrain maxShortStringSize calls h client applies).released.count b = 0 ∧
      (PluginClient.afterDrain maxShortStringSize calls h client applies).heap.blocks[b]?
        = h.blocks[b]?) ∧
    (PluginClient.afterDrain maxShortStringSize calls h client applies).applied
      = (PluginClient.afterCalls maxShortStringSize calls h client).2.commands_.filter
          applies := by
  obtain ⟨cs, news, h1, h2, h3, h4⟩ :=
    runCalls_effect maxShortStringSize calls h { client with commands_ := [] }
  have hcmds : (PluginClient.afterCalls maxShortStringSize calls h client).2.commands_ = cs := by
    unfold PluginClient.afterCalls
    rw [h1]
    simp
  have hblocks : (PluginClient.afterCalls maxShortStringSize calls h client).1.blocks
      = h.blocks ++ news := h2
  obtain ⟨d1, d2, d3⟩ := Consumed.drain_effect applies cs
    ⟨(PluginClient.afterCalls maxShortStringSize calls h client).1, [], []⟩
  have hrel : (PluginClient.afterDrain maxShortStringSize calls h client applies).released
      = List.range' h.blocks.length news.length := by
    unfold PluginClient.afterDrain
    rw [hcmds, d1, h4]
    simp
  have hheap : (PluginClient.afterDrain maxShortStringSize calls h client applies).heap
      = (List.range' h.blocks.length news.length).foldl Heap.free
          (PluginClient.afterCalls maxShortStringSize calls h client).1 := by
    unfold PluginClient.afterDrain
    rw [hcmds, d2, h4]
  have hlen : (PluginClient.afterCalls maxShortStringSize calls h client).1.blocks.length
      - h.blocks.length = news.length := by
    rw [hblocks]; simp
  obtain ⟨_, hget⟩ := Heap.freeAll_blocks (List.range' h.blocks.length news.length)
    (PluginClient.afterCalls maxShortStringSize calls h client).1
  refine ⟨?_, ?_, ?_, ?_, ?_, ?_⟩
  · rw [hrel, hcmds, h4]
  · rw [hrel, hlen]
  · rw [hrel]; exact List.nodup_range' _ _
  · intro b hlo hhi
    have hhi2 : b < h.blocks.length + news.length := by
      rw [hblocks] at hhi; simpa using hhi
    have hmem : b ∈ List.range' h.blocks.length news.length := by
      rw [List.mem_range'_1]; exact ⟨hlo, hhi2⟩
    refine ⟨?_, ?_, ?_⟩
    · rw [hblocks, List.getElem?_append_right hlo]
      have hidx : b - h.blocks.length < news.length := by omega
      obtain ⟨cells, hc⟩ := h3 _ (List.getElem_mem hidx)
      exact ⟨cells, by rw [List.getElem?_eq_getElem hidx, hc]⟩
    · rw [hrel]
      exact List.count_eq_one_of_mem (List.nodup_range' _ _) hmem
    · rw [hheap, hget b, if_pos ⟨hmem, hhi⟩]
  · intro b hb
    have hnot : b ∉ List.range' h.blocks.length news.length := by
      rw [List.mem_range'_1]; omega
    refine ⟨?_, ?_⟩
    · rw [hrel]; exact List.count_eq_zero_of_not_mem hnot
    · rw [hheap, hget b, if_neg (fun hc => hnot hc.1), hblocks, List.getElem?_append_left hb]
  · unfold PluginClient.afterDrain
    rw [hcmds, d3]
    simp

/-- Witness of C13: the buffer of the long string, block 2, after the three
sample calls, the consumer discarding every command. -/
theorem Consumed.each_buffer_released_once_witness :
    (∃ cells, (PluginClient.afterCalls 4 Sample.calls Sample.memory Sample.client).1.blocks[2]?
      = some (some cells)) ∧
    (PluginClient.afterDrain 4 Sample.calls Sample.memory Sample.client
      fun _ => false).released.count 2 = 1 ∧
    (PluginClient.afterDrain 4 Sample.calls Sample.memory Sample.client
      fun _ => false).heap.blocks[2]? = some none :=
  (Consumed.each_buffer_released_once 4 Sample.calls Sample.memory Sample.client
    fun _ => false).2.2.2.1 2 (by decide) (by decide)

end vst

/-! ## Object implementations -/

theorem ImplementationBase.ite_true_eq_true_iff (c : Prop) [Decidable c] (r : Bool) :
    ((if c then true else r) = true) ↔ (c ∨ r = true) := by
  by_cases h : c
  · simp [h]
  · simp [h]

theorem ImplementationBase.ite_some_ne_none_iff {α : Type} (c : Prop) [Decidable c] (v : α) (r : Option α) :
    ((if c then some v else r) ≠ none) ↔ (c ∨ r ≠ none) := by
  by_cases h : c
  · simp [h]
  · simp [h]

theorem ImplementationBase.has_iff_create_chain {α : Type}
    (c1 c2 c3 c4 c5 c6 c7 c8 c9 c10 c11 : Prop)
    [Decidable c1] [Decidable c2] [Decidable c3] [Decidable c4] [Decidable c5] [Decidable c6]
    [Decidable c7] [Decidable c8] [Decidable c9] [Decidable c10] [Decidable c11]
    (v1 v2 v3 v4 v5 v6 v7 v8 v9 v10 v11 : α) :
    ((if c1 then true else if c2 then true else if c3 then true
      else if c4 then true else if c5 then true else if c6 then true
      else if c7 then true else if c8 then true else if c9 then true
      else if c10 then true else if c11 then true else false) = true) ↔
    ((if c1 then some v1 else if c2 then some v2 else if c6 then some v6
      else if c7 then some v7 else if c8 then some v8 else if c9 then some v9
      else if c10 then some v10 else if c3 then some v3 else if c4 then some v4
      else if c5 then some v5 else if c11 then some v11 else none) ≠ none) := by
  simp only [ImplementationBase.ite_true_eq_true_iff, ImplementationBase.ite_some_ne_none_iff]
  simp only [Bool.false_eq_true, or_false, ne_eq, not_true_eq_false]
  tauto

/-- C20. For every type name, `hasImplementation` returns `true` exactly when
`createImplementation` returns a non-null implementation, and both accept
each of canvas, graph, key, keyname, keyup, canvas.active, canvas.mouse,
canvas.vis, canvas.zoom, canvas.edit and mouse. -/
theorem ImplementationBase.hasImplementation_iff_createImplementation
    (hash : String → Nat) (type : String) (ptr : Nat) :
    (ImplementationBase.hasImplementation hash type = true ↔
      ImplementationBase.createImplementation hash type ptr ≠ none) ∧
    (∀ t ∈ ["canvas", "graph", "key", "keyname", "keyup", "canvas.active", "canvas.mouse",
        "canvas.vis", "canvas.zoom", "canvas.edit", "mouse"],
      ImplementationBase.hasImplementation hash t = true ∧
      ImplementationBase.createImplementation hash t ptr ≠ none) := by
  have key : ∀ t : String, ImplementationBase.hasImplementation hash t = true ↔
      ImplementationBase.createImplementation hash t ptr ≠ none := fun t =>
    ImplementationBase.has_iff_create_chain _ _ _ _ _ _ _ _ _ _ _ _ _ _ _ _ _ _ _ _ _ _
  have named : ∀ t ∈ ["canvas", "graph", "key", "keyname", "keyup", "canvas.active",
      "canvas.mouse", "canvas.vis", "canvas.zoom", "canvas.edit", "mouse"],
      ImplementationBase.hasImplementation hash t = true := by
    intro t ht
    unfold ImplementationBase.hasImplementation
    simp only [ImplementationBase.ite_true_eq_true_iff]
    simp only [List.mem_cons, List.mem_singleton, List.not_mem_nil, or_false] at ht
    rcases ht with h | h | h | h | h | h | h | h | h | h | h <;> rw [h] <;>
      simp only [true_or, or_true]
  exact ⟨key type, fun t ht => ⟨named t ht, (key t).mp (named t ht)⟩⟩

namespace ObjectImplementationManager

mutual
theorem forObjects_has (hash : String → Nat) (names : ClassNames)
    (hcanvas : ImplementationBase.hasImplementation hash names.canvas = true) :
    ∀ (l : List Gobj), ∀ p ∈ forObjects hash names l,
      ImplementationBase.hasImplementation hash p.name = true
  | [], p, hp => by simp [forObjects] at hp
  | y :: rest, p, hp => by
    rw [forObjects] at hp
    rcases List.mem_append.mp hp with h | h
    · exact forObject_has hash names hcanvas y p h
    · exact forObjects_has hash names hcanvas rest p h
theorem forObject_has (hash : String → Nat) (names : ClassNames)
    (hcanvas : ImplementationBase.hasImplementation hash names.canvas = true) :
    ∀ (y : Gobj), ∀ p ∈ forObject hash names y,
      ImplementationBase.hasImplementation hash p.name = true
  | .canvas (.mk addr gl_list), p, hp => by
    rw [forObject] at hp
    rcases List.mem_append.mp hp with h | h
    · exact forObjects_has hash names hcanvas gl_list p h
    · rw [if_pos hcanvas] at h
      simp at h
      rw [h]; exact hcanvas
  | .clone addr instances, p, hp => by
    rw [forObject] at hp
    rcases List.mem_append.mp hp with h | h
    · exact forInstances_has hash names hcanvas instances p h
    · by_cases hc : ImplementationBase.hasImplementation hash names.clone = true
      · rw [if_pos hc] at h
        simp at h
        rw [h]; exact hc
      · rw [if_neg hc] at h
        simp at h
  | .object addr name, p, hp => by
    rw [forObject] at hp
    by_cases hc : ImplementationBase.hasImplementation hash name = true
    · rw [if_pos hc] at hp
      simp at hp
      rw [hp]; exact hc
    · rw [if_neg hc] at hp
      simp at hp
theorem forInstances_has (hash : String → Nat) (names : ClassNames)
    (hcanvas : ImplementationBase.hasImplementation hash names.canvas = true) :
    ∀ (l : List Glist), ∀ p ∈ forInstances hash names l,
      ImplementationBase.hasImplementation hash p.name = true
  | [], p, hp => by simp [forInstances] at hp
  | .mk addr gl_list :: rest, p, hp => by
    rw [forInstances] at hp
    rcases List.mem_append.mp hp with h | h
    · rcases List.mem_append.mp h with h1 | h2
      · exact forObjects_has hash names hcanvas gl_list p h1
      · simp at h2
        rw [h2]; exact hcanvas
    · exact forInstances_has hash names hcanvas rest p h
end


theorem assign_mem (m : ImplementationMap) (ptr : Nat) (value : Option Implementation) :
    ∀ e ∈ assign m ptr value, e ∈ m ∨ e = (ptr, value) := by
  intro e he
  unfold assign at he
  split at he
  · obtain ⟨x, hx, rfl⟩ := List.mem_map.mp he
    by_cases hk : (x.1 == ptr) = true
    · right; simp [hk]
    · left; simp [hk, hx]
  · rcases List.mem_append.mp he with h | h
    · exact Or.inl h
    · right; simpa using h

theorem lookup_assign (m : ImplementationMap) (ptr : Nat) (value : Option Implementation) :
    (assign m ptr value).lookup ptr = some value := by
  unfold assign
  by_cases hc : count m ptr = true
  · rw [if_pos hc]
    induction m with
    | nil => simp [count] at hc
    | cons x rest ih =>
      by_cases hk : (x.1 == ptr) = true
      · have hp : (ptr == ptr) = true := by simp
        simp only [List.map_cons, if_pos hk]
        rw [List.lookup_cons, hp]
      · have hrest : count rest ptr = true := by
          simp only [count, List.any_cons, Bool.or_eq_true] at hc
          rcases hc with h | h
          · exact absurd h hk
          · exact h
        have hne : (ptr == x.1) = false := by
          simp only [beq_iff_eq] at hk
          simp only [beq_eq_false_iff_ne, ne_eq]
          exact fun e => hk e.symm
        simp only [List.map_cons, if_neg hk]
        rw [List.lookup_cons, hne]
        exact ih hrest
  · rw [if_neg hc]
    induction m with
    | nil => simp [List.lookup]
    | cons x rest ih =>
      have hk : ¬ (x.1 == ptr) = true := by
        intro h; apply hc; simp [count, h]
      have hrest : ¬ count rest ptr = true := by
        intro h; apply hc
        simp only [count, List.any_cons, Bool.or_eq_true]
        exact Or.inr h
      have hne : (ptr == x.1) = false := by
        simp only [beq_iff_eq] at hk
        simp only [beq_eq_false_iff_ne, ne_eq]
        exact fun e => hk e.symm
      rw [List.cons_append, List.lookup_cons, hne]
      exact ih hrest

theorem lookup_of_count (m : ImplementationMap) (ptr : Nat) (hc : count m ptr = true) :
    ∃ v, m.lookup ptr = some v ∧ (ptr, v) ∈ m := by
  induction m with
  | nil => simp [count] at hc
  | cons x rest ih =>
    by_cases hk : (x.1 == ptr) = true
    · have hp : (ptr == x.1) = true := by
        simp only [beq_iff_eq] at hk ⊢; exact hk.symm
      refine ⟨x.2, by rw [List.lookup_cons, hp], ?_⟩
      simp only [beq_iff_eq] at hk
      rw [← hk]
      exact List.mem_cons_self _ _
    · have hrest : count rest ptr = true := by
        simp only [count, List.any_cons, Bool.or_eq_true] at hc
        rcases hc with h | h
        · exact absurd h hk
        · exact h
      have hne : (ptr == x.1) = false := by
        simp only [beq_iff_eq] at hk
        simp only [beq_eq_false_iff_ne, ne_eq]
        exact fun e => hk e.symm
      obtain ⟨v, hv, hmem⟩ := ih hrest
      exact ⟨v, by rw [List.lookup_cons, hne]; exact hv, List.mem_cons_of_mem _ hmem⟩

theorem createAndUpdate_total (hash : String → Nat) (allImplementations : List GobjPtr) :
    ∀ m : ImplementationMap,
      (∀ p ∈ allImplementations,
        ImplementationBase.createImplementation hash p.name p.addr ≠ none) →
      (∀ e ∈ m, e.2 ≠ none) →
      ∃ after, createAndUpdate hash allImplementations m = some after ∧
        ∀ e ∈ after, e.2 ≠ none := by
  induction allImplementations with
  | nil => intro m _ hm; exact ⟨m, rfl, hm⟩
  | cons ptr rest ih =>
    intro m hall hm
    have hcreate := hall ptr (List.mem_cons_self _ _)
    have hrest : ∀ p ∈ rest, ImplementationBase.createImplementation hash p.name p.addr ≠ none :=
      fun p hp => hall p (List.mem_cons_of_mem _ hp)
    obtain ⟨m1, hm1def, hm1, impl, hlook⟩ : ∃ m1 : ImplementationMap,
        m1 = (if !count m ptr.addr then
            assign m ptr.addr (ImplementationBase.createImplementation hash ptr.name ptr.addr)
          else m) ∧
        (∀ e ∈ m1, e.2 ≠ none) ∧ ∃ impl, m1.lookup ptr.addr = some (some impl) := by
      by_cases hc : count m ptr.addr = true
      · refine ⟨m, by simp [hc], hm, ?_⟩
        obtain ⟨v, hv, hmem⟩ := lookup_of_count m ptr.addr hc
        cases v with
        | none => exact absurd rfl (hm _ hmem)
        | some impl => exact ⟨impl, hv⟩
      · cases hnew : ImplementationBase.createImplementation hash ptr.name ptr.addr with
        | none => exact absurd hnew hcreate
        | some impl =>
          refine ⟨assign m ptr.addr (some impl), by simp [hc], ?_, impl, lookup_assign _ _ _⟩
          intro e he
          rcases assign_mem m ptr.addr (some impl) e he with h | h
          · exact hm e h
          · rw [h]; simp
    have hupd : updateAt m1 ptr.addr
        = some (assign m1 ptr.addr (some (ImplementationBase.update impl))) := by
      simp [updateAt, hlook]
    have hm2 : ∀ e ∈ assign m1 ptr.addr (some (ImplementationBase.update impl)), e.2 ≠ none := by
      intro e he
      rcases assign_mem m1 ptr.addr _ e he with h | h
      · exact hm1 e h
      · rw [h]; simp
    obtain ⟨after, hafter, hnn⟩ := ih _ hrest hm2
    refine ⟨after, ?_, hnn⟩
    have hstep : createAndUpdate hash (ptr :: rest) m
        = (updateAt m1 ptr.addr).bind (createAndUpdate hash rest) := by
      rw [hm1def]; rfl
    rw [hstep, hupd, Option.some_bind, hafter]

end ObjectImplementationManager

/-- C19. When the class name of `canvas_class`, which is the class of every
clone instance, has an implementation, and the map holds no null pointer
before the call: `createImplementation` returns a non-null implementation for
the class name of every pointer that `getImplementationsForPatch` collects
over the canvases, `handleAsyncUpdate` never calls `update()` through a null
pointer, and the map holds no null pointer after the call. -/
theorem ObjectImplementationManager.handleAsyncUpdate_updates_non_null
    (hash : String → Nat) (names : ClassNames) (canvaslist : List Glist)
    (objectImplementations : ImplementationMap)
    (hcanvas : ImplementationBase.hasImplementation hash names.canvas = true)
    (hmap : ∀ e ∈ objectImplementations, e.2 ≠ none) :
    (∀ p ∈ canvaslist.flatMap (ObjectImplementationManager.getImplementationsForPatch hash names),
      ImplementationBase.hasImplementation hash p.name = true ∧
      ImplementationBase.createImplementation hash p.name p.addr ≠ none) ∧
    ∃ after, ObjectImplementationManager.handleAsyncUpdate hash names canvaslist
        objectImplementations = some after ∧
      ∀ e ∈ after, e.2 ≠ none := by
  have hall : ∀ p ∈ canvaslist.flatMap
      (ObjectImplementationManager.getImplementationsForPatch hash names),
      ImplementationBase.hasImplementation hash p.name = true := by
    intro p hp
    obtain ⟨g, _, hg⟩ := List.mem_flatMap.mp hp
    cases g with
    | mk addr gl_list =>
      rw [ObjectImplementationManager.getImplementationsForPatch] at hg
      exact ObjectImplementationManager.forObjects_has hash names hcanvas gl_list p hg
  have hcreate : ∀ p ∈ canvaslist.flatMap
      (ObjectImplementationManager.getImplementationsForPatch hash names),
      ImplementationBase.createImplementation hash p.name p.addr ≠ none := fun p hp =>
    (ImplementationBase.has_iff_create_chain _ _ _ _ _ _ _ _ _ _ _ _ _ _ _ _ _ _ _ _ _ _).mp
      (hall p hp)
  refine ⟨fun p hp => ⟨hall p hp, hcreate p hp⟩, ?_⟩
  have hfilter : ∀ e ∈ ObjectImplementationManager.removeUnused
      (canvaslist.flatMap (ObjectImplementationManager.getImplementationsForPatch hash names))
      objectImplementations, e.2 ≠ none := by
    intro e he
    exact hmap e (List.mem_of_mem_filter he)
  exact ObjectImplementationManager.createAndUpdate_total hash _ _ hcreate hfilter

/-- Witness of C19: the sample canvas list, with a clone instance, and a map
with one entry to keep and one to erase. -/
theorem ObjectImplementationManager.handleAsyncUpdate_updates_non_null_witness :
    (∀ p ∈ PatchSample.canvaslist.flatMap
        (ObjectImplementationManager.getImplementationsForPatch PatchSample.hash PatchSample.names),
      ImplementationBase.hasImplementation PatchSample.hash p.name = true ∧
      ImplementationBase.createImplementation PatchSample.hash p.name p.addr ≠ none) ∧
    ∃ after, ObjectImplementationManager.handleAsyncUpdate PatchSample.hash PatchSample.names
        PatchSample.canvaslist PatchSample.implementations = some after ∧
      ∀ e ∈ after, e.2 ≠ none :=
  ObjectImplementationManager.handleAsyncUpdate_updates_non_null PatchSample.hash PatchSample.names
    PatchSample.canvaslist PatchSample.implementations (by decide) (by decide)

/-! ## Text objects -/

theorem Float32.roundNat_small (a : Nat) (ha : a < 16777216) : Float32.roundNat a = a := by
  have hu : Float32.ulpFrom 104 1 a = 1 := by
    simp [Float32.ulpFrom, ha]
  simp [Float32.roundNat, hu, Nat.mod_one]

theorem Float32.round_small (z : Int) (h0 : 0 ≤ z) (hz : z < 16777216) :
    Float32.round z = z := by
  have hnat : z.natAbs < 16777216 := by omega
  have hnot : ¬ z < 0 := by omega
  simp only [Float32.round, if_neg hnot, Float32.roundNat_small _ hnat]
  exact Int.natAbs_of_nonneg h0

theorem TextObjectHelper.getIdealWidthForText_ge (lineWidths : List Int) :
    TextObjectHelper.minWidth ≤ TextObjectHelper.getIdealWidthForText lineWidths := by
  have key : ∀ (l : List Int) (w : Int), TextObjectHelper.minWidth ≤ w →
      TextObjectHelper.minWidth
        ≤ l.foldl (fun w lineWidth => max (Int32.add lineWidth 14) w) w := by
    intro l
    induction l with
    | nil => intro w hw; simpa using hw
    | cons a rest ih =>
      intro w hw
      rw [List.foldl_cons]
      exact ih _ (le_trans hw (le_max_right _ _))
  exact key lineWidths _ (le_refl _)

theorem Int32.wrap_of_fits (z : Int) (hz : Int32.fits z) : Int32.wrap z = z := by
  unfold Int32.wrap
  obtain ⟨h1, h2⟩ := hz
  omega

/-- C25, as amended. For every font width `fontWidth > 0`, character width,
ideal text width and `maxIolets` for which the products and the sum that the
computation performs on `int` lie in the range of `int` (`maxIolets * 18`;
`max(charWidth, minWidth) * fontWidth` for an empty text; `60 * fontWidth`
for a non-empty text with `charWidth == 0`; otherwise
`max(charWidth, minWidth) * fontWidth` and that product plus `offset`), the
width returned by `recalculateTextObjectBounds` is `max(w0, maxIolets * 18)`,
where `w0` is `max(charWidth, minWidth) * fontWidth` for an empty text, the
ideal width clamped to `[minWidth * fontWidth, 60 * fontWidth]` for a
non-empty text with `charWidth == 0`, and
`max(charWidth, minWidth) * fontWidth + offset` otherwise, with `offset` the
remainder of the ideal width by `fontWidth` when `applyOffset` is set and 0
when it is not; `x` and `y` are returned unchanged. For an ideal width that
`getIdealWidthForText` computes, which is at least `minWidth`, the remainder
of `%` is the ordinary one. -/
theorem TextObjectHelper.recalculateTextObjectBounds_width
    (x y fontWidth idealTextWidth charWidth : Int) (textIsEmpty : Bool)
    (getNumLines : Int → Int → Int) (applyOffset : Bool) (maxIolets : Int)
    (hfont : 0 < fontWidth)
    (hiolets : Int32.fits (maxIolets * 18))
    (hwidth :
      if textIsEmpty then Int32.fits (max charWidth TextObjectHelper.minWidth * fontWidth)
      else if charWidth = 0 then Int32.fits (60 * fontWidth)
      else Int32.fits (max charWidth TextObjectHelper.minWidth * fontWidth) ∧
        Int32.fits (max charWidth TextObjectHelper.minWidth * fontWidth
          + (if applyOffset then TextObjectHelper.rem idealTextWidth fontWidth else 0))) :
    (TextObjectHelper.recalculateTextObjectBounds x y fontWidth idealTextWidth charWidth
      textIsEmpty getNumLines applyOffset maxIolets).1.w
      = max
          (if textIsEmpty then max charWidth TextObjectHelper.minWidth * fontWidth
           else if charWidth = 0 then
             max (TextObjectHelper.minWidth * fontWidth) (min idealTextWidth (60 * fontWidth))
           else max charWidth TextObjectHelper.minWidth * fontWidth
             + (if applyOffset then TextObjectHelper.rem idealTextWidth fontWidth else 0))
          (maxIolets * 18) ∧
    (TextObjectHelper.recalculateTextObjectBounds x y fontWidth idealTextWidth charWidth
      textIsEmpty getNumLines applyOffset maxIolets).1.x = x ∧
    (TextObjectHelper.recalculateTextObjectBounds x y fontWidth idealTextWidth charWidth
      textIsEmpty getNumLines applyOffset maxIolets).1.y = y ∧
    (∀ lineWidths : List Int,
      TextObjectHelper.rem (TextObjectHelper.getIdealWidthForText lineWidths) fontWidth
        = TextObjectHelper.getIdealWidthForText lineWidths % fontWidth) := by
  have hclamp : TextObjectHelper.clamp idealTextWidth (TextObjectHelper.minWidth * fontWidth)
      (fontWidth * 60)
      = max (TextObjectHelper.minWidth * fontWidth) (min idealTextWidth (60 * fontWidth)) := by
    unfold TextObjectHelper.clamp TextObjectHelper.minWidth
    split_ifs <;> omega
  have hio : Int32.mul maxIolets 18 = maxIolets * 18 := Int32.wrap_of_fits _ hiolets
  refine ⟨?_, rfl, rfl, ?_⟩
  · simp only [TextObjectHelper.recalculateTextObjectBounds, hio]
    by_cases hempty : textIsEmpty = true
    · rw [if_pos hempty] at hwidth
      have hm : Int32.mul (max charWidth TextObjectHelper.minWidth) fontWidth
          = max charWidth TextObjectHelper.minWidth * fontWidth := Int32.wrap_of_fits _ hwidth
      simp only [if_pos hempty, hm]
    · rw [if_neg hempty] at hwidth
      by_cases hauto : charWidth = 0
      · rw [if_pos hauto] at hwidth
        have h60 : Int32.mul fontWidth 60 = fontWidth * 60 :=
          Int32.wrap_of_fits _ (by unfold Int32.fits at hwidth ⊢; omega)
        have h3 : Int32.mul TextObjectHelper.minWidth fontWidth
            = TextObjectHelper.minWidth * fontWidth :=
          Int32.wrap_of_fits _ (by
            unfold Int32.fits at hwidth ⊢
            unfold TextObjectHelper.minWidth
            omega)
        simp only [if_neg hempty, if_pos hauto, h60, h3, hclamp]
      · rw [if_neg hauto] at hwidth
        have hm : Int32.mul (max charWidth TextObjectHelper.minWidth) fontWidth
            = max charWidth TextObjectHelper.minWidth * fontWidth :=
          Int32.wrap_of_fits _ hwidth.1
        have hs : Int32.add (max charWidth TextObjectHelper.minWidth * fontWidth)
            (if applyOffset then TextObjectHelper.rem idealTextWidth fontWidth else 0)
            = max charWidth TextObjectHelper.minWidth * fontWidth
              + (if applyOffset then TextObjectHelper.rem idealTextWidth fontWidth else 0) :=
          Int32.wrap_of_fits _ hwidth.2
        simp only [if_neg hempty, if_neg hauto, hm, hs]
  · intro lineWidths
    have hge := TextObjectHelper.getIdealWidthForText_ge lineWidths
    have h0 : 0 ≤ TextObjectHelper.getIdealWidthForText lineWidths := by
      unfold TextObjectHelper.minWidth at hge; omega
    unfold TextObjectHelper.rem
    exact Int.tmod_eq_emod h0 (le_of_lt hfont)

/-- Witness of the amended C25: font width 7, ideal width 1000, automatic
width, three iolets. -/
theorem TextObjectHelper.recalculateTextObjectBounds_width_witness :
    (TextObjectHelper.recalculateTextObjectBounds 5 6 7 1000 0 false (fun _ _ => 2) true 3).1.w
      = max
          (if false = true then max 0 TextObjectHelper.minWidth * 7
           else if (0 : Int) = 0 then
             max (TextObjectHelper.minWidth * 7) (min 1000 (60 * 7))
           else max 0 TextObjectHelper.minWidth * 7
             + (if true = true then TextObjectHelper.rem 1000 7 else 0))
          (3 * 18) ∧
    (TextObjectHelper.recalculateTextObjectBounds 5 6 7 1000 0 false (fun _ _ => 2) true 3).1.x
      = 5 ∧
    (TextObjectHelper.recalculateTextObjectBounds 5 6 7 1000 0 false (fun _ _ => 2) true 3).1.y
      = 6 ∧
    (∀ lineWidths : List Int,
      TextObjectHelper.rem (TextObjectHelper.getIdealWidthForText lineWidths) 7
        = TextObjectHelper.getIdealWidthForText lineWidths % 7) :=
  TextObjectHelper.recalculateTextObjectBounds_width 5 6 7 1000 0 false (fun _ _ => 2) true 3
    (by decide) (by decide) (by decide)

/-- C25 as stated fails at `maxIolets == 119304648` with font width 7, ideal
width 100 and automatic width: the product `maxIolets * 18` is 2147483664,
outside the range of `int`, the `int` computed for it is negative, and the
width returned is 100, not `max(100, 2147483664)`. -/
theorem TextObjectHelper.recalculateTextObjectBounds_width_counterexample :
    (0 : Int) < 7 ∧
    Int32.mul 119304648 18 = -2147483632 ∧
    (TextObjectHelper.recalculateTextObjectBounds 5 6 7 100 0 false (fun _ _ => 2) false
      119304648).1.w = 100 ∧
    max
      (if false = true then max 0 TextObjectHelper.minWidth * 7
       else if (0 : Int) = 0 then
         max (TextObjectHelper.minWidth * 7) (min 100 (60 * 7))
       else max 0 TextObjectHelper.minWidth * 7
         + (if false = true then TextObjectHelper.rem 100 7 else 0))
      (119304648 * 18) = (2147483664 : Int) ∧
    (TextObjectHelper.recalculateTextObjectBounds 5 6 7 100 0 false (fun _ _ => 2) false
      119304648).1.w
      ≠ max
          (if false = true then max 0 TextObjectHelper.minWidth * 7
           else if (0 : Int) = 0 then
             max (TextObjectHelper.minWidth * 7) (min 100 (60 * 7))
           else max 0 TextObjectHelper.minWidth * 7
             + (if false = true then TextObjectHelper.rem 100 7 else 0))
          (119304648 * 18) := by
  decide

/-- C26, as amended. For every line count `numLines` computed by
`getNumLines` with `1 <= numLines <= 1118480`, the height returned by
`recalculateTextObjectBounds` is exactly `21 + 15 * (numLines - 1)`: 21 for a
single line and 15 more for each further line. Up to that count the
single-precision sum `numLines * 15 + 6` is exact. -/
theorem TextObjectHelper.recalculateTextObjectBounds_height
    (x y fontWidth idealTextWidth charWidth : Int) (textIsEmpty : Bool)
    (getNumLines : Int → Int → Int) (applyOffset : Bool) (maxIolets : Int)
    (hlow : 1 ≤ (TextObjectHelper.recalculateTextObjectBounds x y fontWidth idealTextWidth
      charWidth textIsEmpty getNumLines applyOffset maxIolets).2)
    (hhigh : (TextObjectHelper.recalculateTextObjectBounds x y fontWidth idealTextWidth
      charWidth textIsEmpty getNumLines applyOffset maxIolets).2 ≤ 1118480) :
    (TextObjectHelper.recalculateTextObjectBounds x y fontWidth idealTextWidth charWidth
      textIsEmpty getNumLines applyOffset maxIolets).1.h
      = 21 + 15 * ((TextObjectHelper.recalculateTextObjectBounds x y fontWidth idealTextWidth
          charWidth textIsEmpty getNumLines applyOffset maxIolets).2 - 1) := by
  simp only [TextObjectHelper.recalculateTextObjectBounds] at hlow hhigh ⊢
  generalize getNumLines _ 15 = n at hlow hhigh ⊢
  have h15 : Float32.ofInt 15 = 15 := Float32.round_small 15 (by omega) (by omega)
  have h6 : Float32.sub 21 15 = 6 := Float32.round_small 6 (by omega) (by omega)
  have hmul : Int32.mul n 15 = n * 15 :=
    Int32.wrap_of_fits _ (by unfold Int32.fits; omega)
  have hn : Float32.ofInt (Int32.mul n 15) = n * 15 := by
    rw [hmul]
    exact Float32.round_small (n * 15) (by omega) (by omega)
  have hsum : Float32.add (n * 15) 6 = n * 15 + 6 :=
    Float32.round_small (n * 15 + 6) (by omega) (by omega)
  rw [h15, h6, hn, hsum]
  simp only [Float32.toInt]
  omega

/-- Witness of the amended C26: three lines give the height 51. -/
theorem TextObjectHelper.recalculateTextObjectBounds_height_witness :
    (TextObjectHelper.recalculateTextObjectBounds 5 6 7 100 0 false (fun _ _ => 3) false 0).1.h
      = 21 + 15 * ((TextObjectHelper.recalculateTextObjectBounds 5 6 7 100 0 false
          (fun _ _ => 3) false 0).2 - 1) :=
  TextObjectHelper.recalculateTextObjectBounds_height 5 6 7 100 0 false (fun _ _ => 3) false 0
    (by decide) (by decide)

/-- C26 as stated fails at `numLines == 1118481`: the height returned is
16777220, and `21 + 15 * (numLines - 1)` is 16777221, which is not a
single-precision number. -/
theorem TextObjectHelper.recalculateTextObjectBounds_height_counterexample :
    (1 : Int) ≤ (TextObjectHelper.recalculateTextObjectBounds 5 6 7 100 0 false
      (fun _ _ => 1118481) false 0).2 ∧
    (TextObjectHelper.recalculateTextObjectBounds 5 6 7 100 0 false
      (fun _ _ => 1118481) false 0).2 = 1118481 ∧
    (TextObjectHelper.recalculateTextObjectBounds 5 6 7 100 0 false
      (fun _ _ => 1118481) false 0).1.h = 16777220 ∧
    (TextObjectHelper.recalculateTextObjectBounds 5 6 7 100 0 false
      (fun _ _ => 1118481) false 0).1.h
      ≠ 21 + 15 * ((TextObjectHelper.recalculateTextObjectBounds 5 6 7 100 0 false
          (fun _ _ => 1118481) false 0).2 - 1) := by
  decide

/-! ## Clearing the implementations of a patch -/

/-- C22. After `handleAsyncUpdate` on the sample patch, whose clone has one
instance at address 16, that address is a key of the map and is among the
pointers `getImplementationsForPatch` returns; after
`clearObjectImplementationsForPatch` on the patch it is still a key, with its
implementation, while the keys of all other objects of the patch are gone. -/
theorem ObjectImplementationManager.clear_keeps_clone_instance :
    (⟨16, "canvas"⟩ : GobjPtr) ∈ ObjectImplementationManager.getImplementationsForPatch
      PatchSample.hash PatchSample.names PatchSample.root ∧
    ObjectImplementationManager.handleAsyncUpdate PatchSample.hash PatchSample.names
      [PatchSample.root] []
      = some [(11, some ⟨.MouseObject, 11, 2⟩), (14, some ⟨.KeyObjectKey, 14, 2⟩),
          (13, some ⟨.SubpatchImpl, 13, 2⟩), (17, some ⟨.CanvasZoomObject, 17, 2⟩),
          (16, some ⟨.SubpatchImpl, 16, 2⟩)] ∧
    ObjectImplementationManager.clearObjectImplementationsForPatch PatchSample.root
      [(11, some ⟨.MouseObject, 11, 2⟩), (14, some ⟨.KeyObjectKey, 14, 2⟩),
        (13, some ⟨.SubpatchImpl, 13, 2⟩), (17, some ⟨.CanvasZoomObject, 17, 2⟩),
        (16, some ⟨.SubpatchImpl, 16, 2⟩)]
      = [(16, some ⟨.SubpatchImpl, 16, 2⟩)] := by
  decide

namespace ObjectImplementationManager

theorem count_iff_mem_keys (m : ImplementationMap) (ptr : Nat) :
    count m ptr = true ↔ ptr ∈ m.map Prod.fst := by
  unfold count
  simp only [List.any_eq_true, beq_iff_eq, List.mem_map]

theorem keys_assign (m : ImplementationMap) (ptr : Nat) (value : Option Implementation) :
    (assign m ptr value).map Prod.fst
      = if count m ptr then m.map Prod.fst else m.map Prod.fst ++ [ptr] := by
  unfold assign
  by_cases hc : count m ptr = true
  · rw [if_pos hc, if_pos hc, List.map_map]
    apply List.map_congr_left
    intro e _
    by_cases hk : (e.1 == ptr) = true
    · simp only [Function.comp, if_pos hk]
      exact (beq_iff_eq.mp hk).symm
    · simp only [Function.comp, if_neg hk]
  · rw [if_neg hc, if_neg hc]
    simp

theorem lookup_assign_ne (m : ImplementationMap) (ptr k : Nat) (value : Option Implementation)
    (hk : k ≠ ptr) : (assign m ptr value).lookup k = m.lookup k := by
  unfold assign
  have step : ∀ l : ImplementationMap,
      (l.map fun e => if e.1 == ptr then (ptr, value) else e).lookup k = l.lookup k := by
    intro l
    induction l with
    | nil => rfl
    | cons x rest ih =>
      by_cases hx : (x.1 == ptr) = true
      · have hne : (k == ptr) = false := by
          simp only [beq_eq_false_iff_ne, ne_eq]; exact hk
        have hne2 : (k == x.1) = false := by
          rw [beq_iff_eq.mp hx]; exact hne
        simp only [List.map_cons, if_pos hx]
        rw [List.lookup_cons, List.lookup_cons, hne, hne2]
        exact ih
      · simp only [List.map_cons, if_neg hx]
        rw [List.lookup_cons, List.lookup_cons, ih]
  have tail : ∀ l : ImplementationMap, (l ++ [(ptr, value)]).lookup k = l.lookup k := by
    intro l
    induction l with
    | nil =>
      have hne : (k == ptr) = false := by
        simp only [beq_eq_false_iff_ne, ne_eq]; exact hk
      simp [List.lookup, hne]
    | cons x rest ih =>
      rw [List.cons_append, List.lookup_cons, List.lookup_cons, ih]
  split
  · exact step m
  · exact tail m

theorem lookup_removeUnused (allImplementations : List GobjPtr) (m : ImplementationMap)
    (k : Nat) (hk : k ∈ allImplementations.map GobjPtr.addr) :
    (removeUnused allImplementations m).lookup k = m.lookup k := by
  unfold removeUnused
  induction m with
  | nil => rfl
  | cons x rest ih =>
    by_cases hx : (k == x.1) = true
    · have hkx : k = x.1 := beq_iff_eq.mp hx
      have hkeep : (allImplementations.any fun p => p.addr == x.1) = true := by
        rw [List.any_eq_true]
        obtain ⟨p, hp, hpa⟩ := List.mem_map.mp hk
        exact ⟨p, hp, by rw [hpa, hkx]; simp⟩
      rw [List.filter_cons_of_pos (by simpa using hkeep), List.lookup_cons, List.lookup_cons, hx]
    · have hx2 : (k == x.1) = false := by simpa using hx
      by_cases hkeep : (allImplementations.any fun p => p.addr == x.1) = true
      · rw [List.filter_cons_of_pos (by simpa using hkeep), List.lookup_cons, List.lookup_cons,
          hx2]
        exact ih
      · rw [List.filter_cons_of_neg (by simpa using hkeep), List.lookup_cons, hx2]
        exact ih

theorem keys_removeUnused (allImplementations : List GobjPtr) (m : ImplementationMap)
    (k : Nat) :
    k ∈ (removeUnused allImplementations m).map Prod.fst
      ↔ k ∈ m.map Prod.fst ∧ k ∈ allImplementations.map GobjPtr.addr := by
  unfold removeUnused
  simp only [List.mem_map, List.mem_filter, List.any_eq_true, beq_iff_eq]
  constructor
  · rintro ⟨e, ⟨he, p, hp, hpe⟩, hk⟩
    exact ⟨⟨e, he, hk⟩, p, hp, by rw [hpe, hk]⟩
  · rintro ⟨⟨e, he, hk⟩, p, hp, hpa⟩
    exact ⟨e, ⟨he, p, hp, by rw [hpa, hk]⟩, hk⟩

theorem nodup_keys_removeUnused (allImplementations : List GobjPtr) (m : ImplementationMap)
    (hm : (m.map Prod.fst).Nodup) :
    ((removeUnused allImplementations m).map Prod.fst).Nodup := by
  unfold removeUnused
  exact List.Nodup.sublist (List.Sublist.map _ (List.filter_sublist _)) hm


theorem count_of_lookup (m : ImplementationMap) (k : Nat) (v : Option Implementation)
    (h : m.lookup k = some v) : count m k = true := by
  induction m with
  | nil => simp [List.lookup] at h
  | cons x rest ih =>
    by_cases hx : (k == x.1) = true
    · simp only [count, List.any_cons, Bool.or_eq_true]
      left
      rw [beq_iff_eq] at hx ⊢
      exact hx.symm
    · have hx2 : (k == x.1) = false := by simpa using hx
      rw [List.lookup_cons, hx2] at h
      have := ih h
      simp only [count, List.any_cons, Bool.or_eq_true] at this ⊢
      exact Or.inr this

theorem step_effect (hash : String → Nat) (ptr : GobjPtr) (rest : List GobjPtr)
    (m : ImplementationMap)
    (hcreate : ImplementationBase.createImplementation hash ptr.name ptr.addr ≠ none)
    (hm : ∀ e ∈ m, e.2 ≠ none) :
    ∃ m2 : ImplementationMap,
      createAndUpdate hash (ptr :: rest) m = createAndUpdate hash rest m2 ∧
      (∀ e ∈ m2, e.2 ≠ none) ∧
      (∀ k, k ∈ m2.map Prod.fst ↔ k ∈ m.map Prod.fst ∨ k = ptr.addr) ∧
      (∀ k old, m.lookup k = some (some old) →
        m2.lookup k = some (some (if k = ptr.addr then ImplementationBase.update old else old))) ∧
      ((m.map Prod.fst).Nodup → (m2.map Prod.fst).Nodup) := by
  obtain ⟨m1, impl, hm1def, hm1, hlook, hkeys1, hold1, hnodup1⟩ :
      ∃ (m1 : ImplementationMap) (impl : Implementation),
        m1 = (if !count m ptr.addr then
            assign m ptr.addr (ImplementationBase.createImplementation hash ptr.name ptr.addr)
          else m) ∧
        (∀ e ∈ m1, e.2 ≠ none) ∧ m1.lookup ptr.addr = some (some impl) ∧
        (∀ k, k ∈ m1.map Prod.fst ↔ k ∈ m.map Prod.fst ∨ k = ptr.addr) ∧
        (∀ k old, m.lookup k = some (some old) → m1.lookup k = some (some old)) ∧
        ((m.map Prod.fst).Nodup → (m1.map Prod.fst).Nodup) := by
    by_cases hc : count m ptr.addr = true
    · obtain ⟨v, hv, hmem⟩ := lookup_of_count m ptr.addr hc
      cases v with
      | none => exact absurd rfl (hm _ hmem)
      | some impl =>
        refine ⟨m, impl, by simp [hc], hm, hv, ?_, fun _ _ h => h, fun h => h⟩
        intro k
        constructor
        · exact fun h => Or.inl h
        · rintro (h | h)
          · exact h
          · rw [h]; exact (count_iff_mem_keys m ptr.addr).mp hc
    · cases hnew : ImplementationBase.createImplementation hash ptr.name ptr.addr with
      | none => exact absurd hnew hcreate
      | some impl =>
        have hkeys : (assign m ptr.addr (some impl)).map Prod.fst
            = m.map Prod.fst ++ [ptr.addr] := by
          rw [keys_assign, if_neg hc]
        refine ⟨assign m ptr.addr (some impl), impl, by simp [hc], ?_, lookup_assign _ _ _,
          ?_, ?_, ?_⟩
        · intro e he
          rcases assign_mem m ptr.addr (some impl) e he with h | h
          · exact hm e h
          · rw [h]; simp
        · intro k
          rw [hkeys]
          simp
        · intro k old hk
          have hne : k ≠ ptr.addr := by
            intro e
            rw [e] at hk
            exact hc (count_of_lookup m ptr.addr _ hk)
          rw [lookup_assign_ne m ptr.addr k _ hne]
          exact hk
        · intro hnd
          rw [hkeys]
          have hnot : ptr.addr ∉ m.map Prod.fst := fun h =>
            hc ((count_iff_mem_keys m ptr.addr).mpr h)
          exact List.Nodup.append hnd (List.nodup_singleton _) (by simpa using hnot)
  have hcount1 : count m1 ptr.addr = true := count_of_lookup m1 ptr.addr _ hlook
  have hupd : updateAt m1 ptr.addr
      = some (assign m1 ptr.addr (some (ImplementationBase.update impl))) := by
    simp [updateAt, hlook]
  have hkeys2 : (assign m1 ptr.addr (some (ImplementationBase.update impl))).map Prod.fst
      = m1.map Prod.fst := by
    rw [keys_assign, if_pos hcount1]
  refine ⟨assign m1 ptr.addr (some (ImplementationBase.update impl)), ?_, ?_, ?_, ?_, ?_⟩
  · have hstep : createAndUpdate hash (ptr :: rest) m
        = (updateAt m1 ptr.addr).bind (createAndUpdate hash rest) := by
      rw [hm1def]; rfl
    rw [hstep, hupd, Option.some_bind]
  · intro e he
    rcases assign_mem m1 ptr.addr _ e he with h | h
    · exact hm1 e h
    · rw [h]; simp
  · intro k
    rw [hkeys2]
    exact hkeys1 k
  · intro k old hk
    by_cases hka : k = ptr.addr
    · rw [if_pos hka, hka, lookup_assign]
      rw [hka] at hk
      have h1 := hold1 ptr.addr old hk
      rw [hlook] at h1
      injection h1 with h1
      injection h1 with h1
      rw [h1]
    · rw [if_neg hka, lookup_assign_ne m1 ptr.addr k _ hka]
      exact hold1 k old hk
  · intro hnd
    rw [hkeys2]
    exact hnodup1 hnd

theorem createAndUpdate_spec (hash : String → Nat) (allImplementations : List GobjPtr) :
    ∀ m : ImplementationMap,
      (∀ p ∈ allImplementations,
        ImplementationBase.createImplementation hash p.name p.addr ≠ none) →
      (∀ e ∈ m, e.2 ≠ none) →
      ∃ after, createAndUpdate hash allImplementations m = some after ∧
        (∀ e ∈ after, e.2 ≠ none) ∧
        (∀ k, k ∈ after.map Prod.fst
          ↔ k ∈ m.map Prod.fst ∨ k ∈ allImplementations.map GobjPtr.addr) ∧
        (∀ k old, m.lookup k = some (some old) →
          after.lookup k = some (some
            (ImplementationBase.update^[(allImplementations.map GobjPtr.addr).count k] old))) ∧
        ((m.map Prod.fst).Nodup → (after.map Prod.fst).Nodup) := by
  induction allImplementations with
  | nil =>
    intro m _ hm
    exact ⟨m, rfl, hm, by simp, by simp, fun h => h⟩
  | cons ptr rest ih =>
    intro m hall hm
    have hcreate := hall ptr (List.mem_cons_self _ _)
    have hrest : ∀ p ∈ rest, ImplementationBase.createImplementation hash p.name p.addr ≠ none :=
      fun p hp => hall p (List.mem_cons_of_mem _ hp)
    obtain ⟨m2, hstep, hnn2, hkeys2, hold2, hnd2⟩ := step_effect hash ptr rest m hcreate hm
    obtain ⟨after, hafter, hnn, hkeys, hold, hnd⟩ := ih m2 hrest hnn2
    refine ⟨after, by rw [hstep, hafter], hnn, ?_, ?_, fun h => hnd (hnd2 h)⟩
    · intro k
      rw [hkeys k, hkeys2 k]
      simp only [List.map_cons, List.mem_cons]
      tauto
    · intro k old hk
      rw [hold k _ (hold2 k old hk)]
      by_cases hka : k = ptr.addr
      · rw [if_pos hka, List.map_cons, hka, List.count_cons_self,
          Function.iterate_succ_apply]
      · rw [if_neg hka, List.map_cons, List.count_cons_of_ne hka]

end ObjectImplementationManager

theorem ObjectImplementationManager.collected_createImplementation
    (hash : String → Nat) (names : ClassNames) (canvaslist : List Glist)
    (hcanvas : ImplementationBase.hasImplementation hash names.canvas = true) :
    ∀ p ∈ canvaslist.flatMap (ObjectImplementationManager.getImplementationsForPatch hash names),
      ImplementationBase.createImplementation hash p.name p.addr ≠ none := by
  intro p hp
  obtain ⟨g, _, hg⟩ := List.mem_flatMap.mp hp
  cases g with
  | mk addr gl_list =>
    rw [ObjectImplementationManager.getImplementationsForPatch] at hg
    exact (ImplementationBase.has_iff_create_chain
      _ _ _ _ _ _ _ _ _ _ _ _ _ _ _ _ _ _ _ _ _ _).mp
      (ObjectImplementationManager.forObjects_has hash names hcanvas gl_list p hg)

/-- C21. When the class name of `canvas_class` has an implementation and the
map holds no null pointer before the call, `handleAsyncUpdate` returns and
afterwards the keys of `objectImplementations` are exactly the addresses
collected by `getImplementationsForPatch` over the canvases: an entry whose
key was not collected is gone and every collected address has an entry. The
entry of a collected address that had an implementation before the call is
that same implementation, with `update()` run on it once for every time the
address was collected; it is not constructed anew. Keys that were distinct
stay distinct. -/
theorem ObjectImplementationManager.handleAsyncUpdate_keys_are_collected
    (hash : String → Nat) (names : ClassNames) (canvaslist : List Glist)
    (objectImplementations : ImplementationMap)
    (hcanvas : ImplementationBase.hasImplementation hash names.canvas = true)
    (hmap : ∀ e ∈ objectImplementations, e.2 ≠ none) :
    ∃ after, ObjectImplementationManager.handleAsyncUpdate hash names canvaslist
        objectImplementations = some after ∧
      (∀ k, k ∈ after.map Prod.fst ↔
        k ∈ (canvaslist.flatMap
          (ObjectImplementationManager.getImplementationsForPatch hash names)).map
            GobjPtr.addr) ∧
      (∀ k old,
        k ∈ (canvaslist.flatMap
          (ObjectImplementationManager.getImplementationsForPatch hash names)).map
            GobjPtr.addr →
        objectImplementations.lookup k = some (some old) →
        after.lookup k = some (some (ImplementationBase.update^[
          ((canvaslist.flatMap
            (ObjectImplementationManager.getImplementationsForPatch hash names)).map
              GobjPtr.addr).count k] old))) ∧
      ((objectImplementations.map Prod.fst).Nodup → (after.map Prod.fst).Nodup) := by
  have hcreate := ObjectImplementationManager.collected_createImplementation
    hash names canvaslist hcanvas
  have hfilter : ∀ e ∈ ObjectImplementationManager.removeUnused
      (canvaslist.flatMap (ObjectImplementationManager.getImplementationsForPatch hash names))
      objectImplementations, e.2 ≠ none :=
    fun e he => hmap e (List.mem_of_mem_filter he)
  obtain ⟨after, hafter, _, hkeys, hold, hnd⟩ :=
    ObjectImplementationManager.createAndUpdate_spec hash _ _ hcreate hfilter
  refine ⟨after, hafter, ?_, ?_, ?_⟩
  · intro k
    rw [hkeys k, ObjectImplementationManager.keys_removeUnused]
    tauto
  · intro k old hk hlook
    apply hold
    rw [ObjectImplementationManager.lookup_removeUnused _ _ _ hk]
    exact hlook
  · intro h
    exact hnd (ObjectImplementationManager.nodup_keys_removeUnused _ _ h)

/-- Witness of C21: the sample canvas list and a map with the entry of the
`mouse` object, which is kept, and the entry of an object that is gone. -/
theorem ObjectImplementationManager.handleAsyncUpdate_keys_are_collected_witness :
    ∃ after, ObjectImplementationManager.handleAsyncUpdate PatchSample.hash PatchSample.names
        PatchSample.canvaslist PatchSample.implementations = some after ∧
      (∀ k, k ∈ after.map Prod.fst ↔
        k ∈ (PatchSample.canvaslist.flatMap
          (ObjectImplementationManager.getImplementationsForPatch PatchSample.hash
            PatchSample.names)).map GobjPtr.addr) ∧
      (∀ k old,
        k ∈ (PatchSample.canvaslist.flatMap
          (ObjectImplementationManager.getImplementationsForPatch PatchSample.hash
            PatchSample.names)).map GobjPtr.addr →
        PatchSample.implementations.lookup k = some (some old) →
        after.lookup k = some (some (ImplementationBase.update^[
          ((PatchSample.canvaslist.flatMap
            (ObjectImplementationManager.getImplementationsForPatch PatchSample.hash
              PatchSample.names)).map GobjPtr.addr).count k] old))) ∧
      ((PatchSample.implementations.map Prod.fst).Nodup → (after.map Prod.fst).Nodup) :=
  ObjectImplementationManager.handleAsyncUpdate_keys_are_collected PatchSample.hash
    PatchSample.names PatchSample.canvaslist PatchSample.implementations
    (by decide) (by decide)

namespace JuceString

theorem replace_one (a : Nat) (ins text : List Nat) :
    replace text [a] ins = text.flatMap fun c => if c = a then ins else [c] := by
  unfold replace
  induction text with
  | nil => simp [replaceFrom]
  | cons c rest ih =>
    by_cases hc : c = a
    · subst hc
      simp [replaceFrom, List.isPrefixOf, ih]
    · have hne : ¬ a = c := fun e => hc e.symm
      simp [replaceFrom, List.isPrefixOf, ih, hc, hne]

theorem replace_two_skip (a b : Nat) (ins : List Nat) (d : Nat) (rest : List Nat) :
    replaceFrom [a, b] ins 1 (d :: rest) = replaceFrom [a, b] ins 0 rest := by
  simp [replaceFrom]

theorem replace_two_hit (a b : Nat) (ins rest : List Nat) :
    replaceFrom [a, b] ins 0 (a :: b :: rest) = ins ++ replaceFrom [a, b] ins 0 rest := by
  simp [replaceFrom, List.isPrefixOf]

theorem replace_two_miss (a b : Nat) (ins : List Nat) (c d : Nat) (rest : List Nat)
    (h : ¬ (c = a ∧ d = b)) :
    replaceFrom [a, b] ins 0 (c :: d :: rest) = c :: replaceFrom [a, b] ins 0 (d :: rest) := by
  have hb : ([a, b].isPrefixOf (c :: d :: rest)) = false := by
    simp only [List.isPrefixOf, Bool.and_true, Bool.and_eq_false_imp, beq_iff_eq,
      beq_eq_false_iff_ne, ne_eq]
    intro hac hbd
    exact h ⟨hac.symm, hbd.symm⟩
  rw [replaceFrom, hb]
  simp

theorem replace_two_single (a b : Nat) (ins : List Nat) (c : Nat) :
    replaceFrom [a, b] ins 0 [c] = [c] := by
  simp [replaceFrom, List.isPrefixOf]

end JuceString

namespace TextObjectHelper

theorem undo_markers (text : List Nat) :
    JuceString.replace (JuceString.replace text [LF] [SPACE]) [CR] [SEMI, LF]
      = text.flatMap fun c => if c = LF then [SPACE] else if c = CR then [SEMI, LF] else [c] := by
  rw [JuceString.replace_one, JuceString.replace_one]
  induction text with
  | nil => rfl
  | cons c rest ih =>
    rw [List.flatMap_cons, List.flatMap_append, ih, List.flatMap_cons]
    by_cases h1 : c = LF
    · have h2 : ¬ SPACE = CR := by decide
      simp [h1, h2]
    · by_cases h2 : c = CR
      · have h3 : ¬ CR = LF := by decide
        simp [h2, h3]
      · simp [h1, h2]

theorem pairs_spec : ∀ (n : Nat) (l : List Nat), l.length ≤ n → CR ∉ l →
    (JuceString.replaceFrom [SEMI, LF] [CR] 0 l).flatMap
        (fun c => if c = LF then [SPACE] else if c = CR then [SEMI, LF] else [c])
      = keepPairs l := by
  intro n
  induction n with
  | zero =>
    intro l hl _
    have : l = [] := List.length_eq_zero.mp (by omega)
    subst this
    simp [JuceString.replaceFrom, keepPairs]
  | succ k ih =>
    intro l hl hcr
    match l, hl, hcr with
    | [], _, _ => simp [JuceString.replaceFrom, keepPairs]
    | [c], _, hcr =>
      have hc : c ≠ CR := fun e => hcr (by simp [e])
      rw [JuceString.replace_two_single]
      by_cases h1 : c = LF
      · simp [keepPairs, h1]
      · simp [keepPairs, h1, hc]
    | c :: d :: rest2, hl, hcr =>
      have hc : c ≠ CR := fun e => hcr (by simp [e])
      have hrest : CR ∉ d :: rest2 := fun h => hcr (List.mem_cons_of_mem _ h)
      have hrest2 : CR ∉ rest2 := fun h => hrest (List.mem_cons_of_mem _ h)
      by_cases hpair : c = SEMI ∧ d = LF
      · obtain ⟨rfl, rfl⟩ := hpair
        rw [JuceString.replace_two_hit, List.flatMap_append,
          ih rest2 (by simp at hl; omega) hrest2]
        have h1 : ¬ CR = LF := by decide
        simp [keepPairs, h1]
      · rw [JuceString.replace_two_miss _ _ _ _ _ _ hpair, List.flatMap_cons,
          ih (d :: rest2) (by simp at hl ⊢; omega) hrest]
        by_cases h1 : c = LF
        · have h3 : ¬ LF = SEMI := by decide
          simp [keepPairs, h1, h3]
        · simp [keepPairs, h1, hc, hpair]

theorem fixNewlines_eq (isWhitespace : Nat → Bool) (text : List Nat) :
    fixNewlines isWhitespace text
      = JuceString.trimEnd isWhitespace (keepPairs (text.filter fun c => c != CR)) := by
  have h1 : JuceString.replace text [CR] [] = text.filter fun c => c != CR := by
    rw [JuceString.replace_one]
    induction text with
    | nil => rfl
    | cons c rest ih =>
      rw [List.flatMap_cons, ih]
      by_cases hc : c = CR
      · simp [hc]
      · simp [hc]
  have hcr : CR ∉ text.filter fun c => c != CR := by
    intro h
    have := (List.mem_filter.mp h).2
    simp at this
  unfold fixNewlines
  simp only []
  rw [undo_markers, h1]
  unfold JuceString.replace
  rw [pairs_spec _ _ (le_refl _) hcr]


theorem keepPairs_no_cr : ∀ (n : Nat) (l : List Nat), l.length ≤ n → CR ∉ l →
    CR ∉ keepPairs l := by
  intro n
  induction n with
  | zero =>
    intro l hl _
    have : l = [] := List.length_eq_zero.mp (by omega)
    subst this
    simp [keepPairs]
  | succ k ih =>
    intro l hl hcr
    match l, hl, hcr with
    | [], _, _ => simp [keepPairs]
    | [c], _, hcr =>
      have hc : ¬ CR = c := fun e => hcr (by simp [e])
      have hs : ¬ CR = SPACE := by decide
      by_cases h1 : c = LF
      · simp [keepPairs, h1, hs]
      · simp [keepPairs, h1, hc]
    | c :: d :: rest2, hl, hcr =>
      have hc : ¬ CR = c := fun e => hcr (by simp [e])
      have hrest : CR ∉ d :: rest2 := fun h => hcr (List.mem_cons_of_mem _ h)
      have hrest2 : CR ∉ rest2 := fun h => hrest (List.mem_cons_of_mem _ h)
      have i1 := ih rest2 (by simp at hl; omega) hrest2
      have i2 := ih (d :: rest2) (by simp at hl ⊢; omega) hrest
      have hs : ¬ CR = SPACE := by decide
      have hsemi : ¬ CR = SEMI := by decide
      have hlf : ¬ CR = LF := by decide
      by_cases hpair : c = SEMI ∧ d = LF
      · simp [keepPairs, hpair, hsemi, hlf, i1]
      · by_cases h1 : c = LF
        · rw [keepPairs, if_neg hpair, if_pos h1]
          simp [hs, i2]
        · rw [keepPairs, if_neg hpair, if_neg h1]
          simp [hc, i2]

theorem keepPairs_newlines : ∀ (n : Nat) (l : List Nat), l.length ≤ n →
    ∀ prev, newlinesAfterSemicolon prev (keepPairs l) := by
  intro n
  induction n with
  | zero =>
    intro l hl prev
    have : l = [] := List.length_eq_zero.mp (by omega)
    subst this
    simp [keepPairs, newlinesAfterSemicolon]
  | succ k ih =>
    intro l hl prev
    match l, hl with
    | [], _ => simp [keepPairs, newlinesAfterSemicolon]
    | [c], _ =>
      have hs : ¬ SPACE = LF := by decide
      by_cases h1 : c = LF
      · simp [keepPairs, newlinesAfterSemicolon, h1, hs]
      · simp [keepPairs, newlinesAfterSemicolon, h1]
    | c :: d :: rest2, hl =>
      have i1 := ih rest2 (by simp at hl; omega)
      have i2 := ih (d :: rest2) (by simp at hl ⊢; omega)
      have hs : ¬ SPACE = LF := by decide
      have hsemi : ¬ SEMI = LF := by decide
      by_cases hpair : c = SEMI ∧ d = LF
      · rw [keepPairs, if_pos hpair]
        exact ⟨fun e => absurd e hsemi, fun _ => rfl, i1 LF⟩
      · by_cases h1 : c = LF
        · rw [keepPairs, if_neg hpair, if_pos h1]
          exact ⟨fun e => absurd e hs, i2 SPACE⟩
        · rw [keepPairs, if_neg hpair, if_neg h1]
          exact ⟨fun e => absurd e h1, i2 c⟩

theorem keepPairs_fixed : ∀ (n : Nat) (l : List Nat), l.length ≤ n →
    ∀ prev, l.head? ≠ some LF → newlinesAfterSemicolon prev l → keepPairs l = l := by
  intro n
  induction n with
  | zero =>
    intro l hl prev _ _
    have : l = [] := List.length_eq_zero.mp (by omega)
    subst this
    simp [keepPairs]
  | succ k ih =>
    intro l hl prev hhead hok
    match l, hl, hhead, hok with
    | [], _, _, _ => simp [keepPairs]
    | [c], _, hhead, _ =>
      have h1 : ¬ c = LF := fun e => hhead (by simp [e])
      simp [keepPairs, h1]
    | c :: d :: rest2, hl, hhead, hok =>
      have h1 : ¬ c = LF := fun e => hhead (by simp [e])
      obtain ⟨_, hd, hrest2⟩ := hok
      by_cases hpair : c = SEMI ∧ d = LF
      · have hhead2 : rest2.head? ≠ some LF := by
          intro hh
          cases rest2 with
          | nil => simp at hh
          | cons e rest3 =>
            simp only [List.head?_cons, Option.some.injEq] at hh
            have := hrest2.1 hh
            rw [hpair.2] at this
            exact absurd this (by decide)
        rw [keepPairs, if_pos hpair,
          ih rest2 (by simp at hl; omega) d hhead2 hrest2, hpair.1, hpair.2]
      · have hd2 : ¬ d = LF := fun e => hpair ⟨hd e, e⟩
        have hhead2 : (d :: rest2).head? ≠ some LF := by simp [hd2]
        rw [keepPairs, if_neg hpair, if_neg h1,
          ih (d :: rest2) (by simp at hl ⊢; omega) c hhead2 ⟨hd, hrest2⟩]

theorem newlinesAfterSemicolon_prefix (a b : List Nat) :
    ∀ prev, newlinesAfterSemicolon prev (a ++ b) → newlinesAfterSemicolon prev a := by
  induction a with
  | nil => intro prev _; trivial
  | cons c rest ih =>
    intro prev h
    exact ⟨h.1, ih c h.2⟩

theorem newlinesAfterSemicolon_index (l : List Nat) :
    ∀ prev, newlinesAfterSemicolon prev l → ∀ i, l[i]? = some LF →
      (i = 0 ∧ prev = SEMI) ∨ (0 < i ∧ l[i - 1]? = some SEMI) := by
  induction l with
  | nil => intro prev _ i hi; simp at hi
  | cons c rest ih =>
    intro prev h i hi
    cases i with
    | zero =>
      left
      simp only [List.getElem?_cons_zero, Option.some.injEq] at hi
      exact ⟨rfl, h.1 hi⟩
    | succ j =>
      right
      refine ⟨Nat.succ_pos j, ?_⟩
      rw [List.getElem?_cons_succ] at hi
      rcases ih c h.2 j hi with ⟨hj, hc⟩ | ⟨hj, hprev⟩
      · subst hj
        simp [hc]
      · obtain ⟨m, rfl⟩ : ∃ m, j = m + 1 := ⟨j - 1, by omega⟩
        simpa using hprev

theorem trimEnd_prefix (isWhitespace : Nat → Bool) (text : List Nat) :
    ∃ tail, text = JuceString.trimEnd isWhitespace text ++ tail := by
  refine ⟨(text.reverse.takeWhile isWhitespace).reverse, ?_⟩
  unfold JuceString.trimEnd
  rw [← List.reverse_append, List.takeWhile_append_dropWhile, List.reverse_reverse]

theorem trimEnd_last (isWhitespace : Nat → Bool) (text : List Nat) (c : Nat)
    (h : (JuceString.trimEnd isWhitespace text).getLast? = some c) : isWhitespace c = false := by
  unfold JuceString.trimEnd at h
  rw [List.getLast?_reverse] at h
  have := List.head?_dropWhile_not isWhitespace text.reverse
  rw [h] at this
  exact this

theorem trimEnd_idempotent (isWhitespace : Nat → Bool) (text : List Nat) :
    JuceString.trimEnd isWhitespace (JuceString.trimEnd isWhitespace text)
      = JuceString.trimEnd isWhitespace text := by
  unfold JuceString.trimEnd
  rw [List.reverse_reverse, List.dropWhile_idempotent]


theorem fixNewlines_facts (isWhitespace : Nat → Bool) (text : List Nat) :
    CR ∉ fixNewlines isWhitespace text ∧
    newlinesAfterSemicolon 0 (fixNewlines isWhitespace text) := by
  rw [fixNewlines_eq]
  have hcr : CR ∉ text.filter fun c => c != CR := by
    intro h
    have := (List.mem_filter.mp h).2
    simp at this
  obtain ⟨tail, htail⟩ := trimEnd_prefix isWhitespace (keepPairs (text.filter fun c => c != CR))
  have h1 := keepPairs_no_cr _ _ (le_refl _) hcr
  have h2 := keepPairs_newlines _ (text.filter fun c => c != CR) (le_refl _) 0
  constructor
  · intro h
    apply h1
    rw [htail]
    exact List.mem_append_left _ h
  · rw [htail] at h2
    exact newlinesAfterSemicolon_prefix _ _ 0 h2

end TextObjectHelper

/-- C23. For every text, `fixNewlines(text)` contains no carriage return,
every newline in it comes right after a semicolon, and its last character,
if it has one, is not whitespace. It is the text without its carriage
returns, with every semicolon-newline pair kept and every other newline
turned into a space, cut after its last character that is not whitespace. -/
theorem TextObjectHelper.fixNewlines_shape (isWhitespace : Nat → Bool) (text : List Nat) :
    CR ∉ TextObjectHelper.fixNewlines isWhitespace text ∧
    (∀ i, (TextObjectHelper.fixNewlines isWhitespace text)[i]? = some LF →
      0 < i ∧ (TextObjectHelper.fixNewlines isWhitespace text)[i - 1]? = some SEMI) ∧
    (∀ c, (TextObjectHelper.fixNewlines isWhitespace text).getLast? = some c →
      isWhitespace c = false) ∧
    TextObjectHelper.fixNewlines isWhitespace text
      = JuceString.trimEnd isWhitespace
          (TextObjectHelper.keepPairs (text.filter fun c => c != CR)) := by
  obtain ⟨hcr, hnl⟩ := TextObjectHelper.fixNewlines_facts isWhitespace text
  refine ⟨hcr, ?_, ?_, TextObjectHelper.fixNewlines_eq isWhitespace text⟩
  · intro i hi
    rcases TextObjectHelper.newlinesAfterSemicolon_index _ 0 hnl i hi with ⟨_, h0⟩ | h
    · exact absurd h0 (by decide)
    · exact h
  · intro c hc
    rw [TextObjectHelper.fixNewlines_eq] at hc
    exact TextObjectHelper.trimEnd_last isWhitespace _ c hc

/-- C24. The function `fixNewlines` is idempotent: for every text,
`fixNewlines(fixNewlines(text)) == fixNewlines(text)`. -/
theorem TextObjectHelper.fixNewlines_idempotent (isWhitespace : Nat → Bool) (text : List Nat) :
    TextObjectHelper.fixNewlines isWhitespace (TextObjectHelper.fixNewlines isWhitespace text)
      = TextObjectHelper.fixNewlines isWhitespace text := by
  obtain ⟨hcr, hnl⟩ := TextObjectHelper.fixNewlines_facts isWhitespace text
  have hfilter : (TextObjectHelper.fixNewlines isWhitespace text).filter (fun c => c != CR)
      = TextObjectHelper.fixNewlines isWhitespace text := by
    rw [List.filter_eq_self]
    intro a ha
    have hne : a ≠ CR := fun e => hcr (e ▸ ha)
    simpa using hne
  have hhead : (TextObjectHelper.fixNewlines isWhitespace text).head? ≠ some LF := by
    intro hh
    cases hr : TextObjectHelper.fixNewlines isWhitespace text with
    | nil => rw [hr] at hh; simp at hh
    | cons c rest =>
      rw [hr] at hh hnl
      simp only [List.head?_cons, Option.some.injEq] at hh
      exact absurd (hnl.1 hh) (by decide)
  have hkeep := TextObjectHelper.keepPairs_fixed _ _ (le_refl _) 0 hhead hnl
  rw [TextObjectHelper.fixNewlines_eq isWhitespace
    (TextObjectHelper.fixNewlines isWhitespace text), hfilter, hkeep]
  rw [TextObjectHelper.fixNewlines_eq isWhitespace text]
  exact TextObjectHelper.trimEnd_idempotent isWhitespace _
